import Mathlib

/-!
# Verification of `bind/gengo.go` (gopy's cgo stub generator)

A shallow embedding of the Go code generator `goGen` and of the parts of
`go/types` and `fmt` it calls, followed by theorems about the text it emits.

Conventions of the embedding:
* a Go `string` is a Lean `String`;
* the receiver `g *goGen` is passed and returned explicitly;
* a Go `panic` is an explicit outcome of `gen`;
* every `g.Printf(format, args...)` is written as the concatenation that the
  format denotes.
-/

set_option maxRecDepth 100000

namespace Gopy

/-! ## The part of `go/types` the generator looks at -/

/-- The dynamic kinds of a `types.Type` other than `*types.Basic` and
`*types.Named`. -/
inductive Composite where
  | Array | Slice | Struct | Pointer | Tuple | Signature | Interface | Map | Chan
deriving DecidableEq

/-- What `Underlying()` of a type is: a basic type or a composite one (never a
named type). -/
inductive Underlying where
  | Basic (name : String)
  | Composite (c : Composite)
deriving DecidableEq

/-- A `types.Type` occurring as the type of a parameter, result or field. A named
type carries the name of its defining object and its underlying type; the
elements of a composite type are not inspected by the generator. -/
inductive GoType where
  | Basic (name : String)
  | Named (obj : String) (underlying : Underlying)
  | Composite (c : Composite)
deriving DecidableEq

/-- The text of `fmt.Sprintf("%#T", typ)` for a composite type: the Go syntax of
the dynamic type of the value. -/
def Composite.goSyntax : Composite → String
  | .Array => "*types.Array"
  | .Slice => "*types.Slice"
  | .Struct => "*types.Struct"
  | .Pointer => "*types.Pointer"
  | .Tuple => "*types.Tuple"
  | .Signature => "*types.Signature"
  | .Interface => "*types.Interface"
  | .Map => "*types.Map"
  | .Chan => "*types.Chan"

/-- The method `Underlying()` of `types.Type`. -/
def GoType.Underlying : GoType → Underlying
  | .Basic n => .Basic n
  | .Named _ u => u
  | .Composite c => .Composite c

/-- A `types.Var`: a parameter, a result or a struct field. -/
structure Var where
  name : String
  type : GoType
deriving DecidableEq

/-- A `types.Signature`: the tuples of parameters and of results. -/
structure Signature where
  params : List Var
  results : List Var
deriving DecidableEq

/-- The underlying type of the named type of a `types.TypeName`, as the switch of
`gen` distinguishes it: a struct with its fields, an interface, or anything
else. The type of a type name of the scope is a named type, so the assertion
`obj.Type().(*types.Named)` holds. -/
inductive TypeDecl where
  | Struct (fields : List Var)
  | Interface
  | Other (u : Underlying)
deriving DecidableEq

/-- An object of the package scope, by dynamic type: `*types.Const`,
`*types.Var`, `*types.Func`, `*types.TypeName`, or any other object. -/
inductive Object where
  | Const (name : String)
  | Var (name : String)
  | Func (name : String) (sig : Signature)
  | TypeName (name : String) (decl : TypeDecl)
  | Other (name : String)
deriving DecidableEq

/-- The method `Name()` of an object. -/
def Object.Name : Object → String
  | .Const n => n
  | .Var n => n
  | .Func n _ => n
  | .TypeName n _ => n
  | .Other n => n

/-- A `types.Package`: its name, its import path and the objects of its scope,
listed in the order of `scope.Names()`. -/
structure TypesPackage where
  name : String
  path : String
  scope : List Object
deriving DecidableEq

/-- The struct `bind.Package`, of which the generator uses the field `pkg`. -/
structure Package where
  pkg : TypesPackage
deriving DecidableEq

/-- Modelled from the spec: the method `Package.Name` of `bind.Package` is not in
`gengo.go`; the module descriptor has one module name, that of the package. -/
def Package.Name (p : Package) : String := p.pkg.name

/-! ## Library and helper functions that `gengo.go` calls but does not define -/

/-- The functions that `gengo.go` calls and that are defined elsewhere; the
generator is verified for every choice of them.
* `isUpper` is `unicode.IsUpper`, the table of the upper-case letters of Unicode;
* `quote` is the verb `%q` of `fmt` on a string (`strconv.Quote`);
* `needWrapType` is `bind.needWrapType`;
* `cgotype` is `getTypedesc(t).cgotype`;
* `resNeedWrap` is `res.needWrap()` and `resCgotype` is `res.dtype.cgotype`, for
  the element `res` that `newVars` builds from a result;
* `resGoSyntax` is the verb `%#v` on `res`, `typeString` the verb `%v` on
  `res.GoType().Underlying()`. -/
structure Env where
  isUpper : Char → Bool
  quote : String → String
  needWrapType : GoType → Bool
  cgotype : GoType → String
  resNeedWrap : Var → Bool
  resCgotype : Var → String
  resGoSyntax : Var → String
  typeString : Underlying → String

/-- The function `token.IsExported` behind `Exported()`: the first character of
the name is an upper-case letter of Unicode; the empty name is not exported. -/
def isExported (env : Env) (name : String) : Bool :=
  match name.data with
  | [] => false
  | c :: _ => env.isUpper c

/-- The method `Exported()` of a field. -/
def Var.Exported (env : Env) (v : Var) : Bool := isExported env v.name

/-- The method `Exported()` of an object. -/
def Object.Exported (env : Env) (o : Object) : Bool := isExported env o.Name

/-- Modelled from the spec: `newVars` of package `bind` is not in `gengo.go`; each
result is bound to one synthetic local, in declaration order, so `newVars`
yields one element per element of the tuple, in order. -/
def newVars (tuple : List Var) : List Var := tuple

/-- The verb `%d` of `fmt` on a non-negative `int`. -/
def fmtD (n : Nat) : String := toString n

/-- The verb `%03d` of `fmt` on a non-negative `int`: decimal, padded with zeros
to a width of three. -/
def fmt03d (n : Nat) : String :=
  if n < 10 then "00" ++ toString n
  else if n < 100 then "0" ++ toString n
  else toString n

/-! ## The printer -/

/-- Modelled from the spec: the type `printer` of package `bind` is not in
`gengo.go`. The spec describes an append-only output sink; the indentation is
a level that only `Indent` and `Outdent` change. How a level is rendered into
the text is not specified and not modelled. -/
structure printer where
  buf : String
  indent : Int
deriving DecidableEq

/-- Modelled from the spec: `Printf` appends the formatted text to the sink. -/
def printer.Printf (p : printer) (s : String) : printer :=
  { p with buf := p.buf ++ s }

/-- Modelled from the spec: `Indent` raises the indentation level by one. -/
def printer.Indent (p : printer) : printer :=
  { p with indent := p.indent + 1 }

/-- Modelled from the spec: `Outdent` lowers the indentation level by one. -/
def printer.Outdent (p : printer) : printer :=
  { p with indent := p.indent - 1 }

/-- The type `ErrorList`: a list of error messages. -/
abbrev ErrorList := List String

/-- The struct `goGen`; the field `fset` is never read by the generator. -/
structure goGen where
  printer : printer
  pkg : Package
  err : ErrorList
deriving DecidableEq

/-- The promoted method `g.Printf`. -/
def goGen.Printf (g : goGen) (s : String) : goGen :=
  { g with printer := g.printer.Printf s }

/-- The promoted method `g.Indent`. -/
def goGen.Indent (g : goGen) : goGen :=
  { g with printer := g.printer.Indent }

/-- The promoted method `g.Outdent`. -/
def goGen.Outdent (g : goGen) : goGen :=
  { g with printer := g.printer.Outdent }

/-! ## The generator -/

/-- The constant `goPreamble` instantiated: `%[1]s` is `n`, `%[2]q` is `q`. -/
def goPreamble (n q : String) : String :=
  "// Package main is an autogenerated binder stub for package " ++ n ++ ".\n" ++
  "// gopy gen -lang=go " ++ n ++ "\n" ++
  "//\n" ++
  "// File is generated by gopy gen. Do not edit.\n" ++
  "package main\n" ++
  "\n" ++
  "//#cgo pkg-config: python2 --cflags --libs\n" ++
  "//#include <stdlib.h>\n" ++
  "//#include <string.h>\n" ++
  "import \"C\"\n" ++
  "\n" ++
  "import (\n" ++
  "\t\"unsafe\"\n" ++
  "\n" ++
  "\t" ++ q ++ "\n" ++
  ")\n" ++
  "\n" ++
  "var _ = unsafe.Pointer(nil)\n" ++
  "\n" ++
  "// --- begin cgo helpers ---\n" ++
  "\n" ++
  "//export CGoPy_GoString\n" ++
  "func CGoPy_GoString(str *C.char) string \x7b \n" ++
  "\treturn C.GoString(str)\n" ++
  "\x7d\n" ++
  "\n" ++
  "//export CGoPy_CString\n" ++
  "func CGoPy_CString(s string) *C.char \x7b\n" ++
  "\treturn C.CString(s)\n" ++
  "\x7d\n" ++
  "\n" ++
  "// --- end cgo helpers ---\n"

/-- The method `goGen.genPreamble`. -/
def genPreamble (env : Env) (g : goGen) : goGen :=
  let n := g.pkg.pkg.name
  g.Printf (goPreamble n (env.quote g.pkg.pkg.path))

/-- The method `goGen.qualifiedType`. The statements after the first `return` of
the case `*types.Named` are unreachable. -/
def qualifiedType (typ : GoType) : String :=
  match typ with
  | .Basic name => name
  | .Named obj _ => "GoPy_" ++ obj
  | .Composite c => c.goSyntax

/-- The method `goGen.tupleString`; `strings.Join` is `String.intercalate`. -/
def tupleString (tuple : List Var) : String :=
  if tuple.length ≤ 0 then ""
  else
    let str := (List.range tuple.length).foldl
      (fun (str : List String) i =>
        match tuple[i]? with
        | some v => str ++ [v.name ++ " " ++ qualifiedType v.type]
        | none => str)
      []
    ", ".intercalate str

/-- The result clause `ret` that `genFunc` computes (lines 124 to 129). -/
def genFuncRet (sig : Signature) : String :=
  let ret := tupleString sig.results
  if sig.results.length > 1 then "(" ++ ret ++ ") " else ret ++ " "

/-- The method `goGen.genFuncBody`. -/
def genFuncBody (env : Env) (g : goGen) (name : String) (sig : Signature) : goGen :=
  let results := newVars sig.results
  let g := (List.range results.length).foldl
    (fun (g : goGen) i =>
      let g := if i > 0 then g.Printf ", " else g
      g.Printf ("_gopy_" ++ fmt03d i))
    g
  let g := if results.length > 0 then g.Printf " := " else g
  let g := g.Printf (g.pkg.Name ++ "." ++ name ++ "(")
  let args := sig.params
  let g := (List.range args.length).foldl
    (fun (g : goGen) i =>
      match args[i]? with
      | some arg =>
        let tail := if i + 1 < args.length then ", " else ""
        g.Printf (arg.name ++ tail)
      | none => g)
    g
  let g := g.Printf ")\n"
  if results.length ≤ 0 then g
  else
    let g := g.Printf "return "
    let g := (List.range results.length).foldl
      (fun (g : goGen) i =>
        match results[i]? with
        | some res =>
          let g := if i > 0 then g.Printf ", " else g
          let g := if env.resNeedWrap res then
            g.Printf (env.resCgotype res ++ "(unsafe.Pointer(&") else g
          let g := g.Printf ("_gopy_" ++ fmt03d i ++ " /* " ++ env.resGoSyntax res ++ " " ++
            env.typeString res.type.Underlying ++ " */")
          if env.resNeedWrap res then g.Printf "))" else g
        | none => g)
      g
    g.Printf "\n"

/-- The method `FullName()` of a package-level function of the package `pkg`: the
path of the package and a dot, written when the path is not empty, then the
name of the function. -/
def FullName (pkg : TypesPackage) (name : String) : String :=
  if pkg.path = "" then name else pkg.path ++ "." ++ name

/-- The method `goGen.genFunc`, for the function `name` of the package being
generated. -/
def genFunc (env : Env) (g : goGen) (name : String) (sig : Signature) : goGen :=
  let params := "(" ++ tupleString sig.params ++ ")"
  let ret := genFuncRet sig
  let fullName := FullName g.pkg.pkg name
  let g := g.Printf ("\n//export GoPy_" ++ name ++ "\n// GoPy_" ++ name ++ " wraps " ++
    fullName ++ "\nfunc GoPy_" ++ name ++ params ++ ret ++ "\x7b\n")
  let g := g.Indent
  let g := genFuncBody env g name sig
  let g := g.Outdent
  g.Printf "\x7d\n\n"

/-- The method `goGen.genStruct`; `obj.Pkg().Name()` is the name of the package
being generated. -/
def genStruct (env : Env) (g : goGen) (name : String) (fields : List Var) : goGen :=
  let pkgname := g.pkg.pkg.name
  let g := g.Printf ("//export GoPy_" ++ name ++ "\n")
  let g := g.Printf ("type GoPy_" ++ name ++ " unsafe.Pointer\n\n")
  let g := (List.range fields.length).foldl
    (fun (g : goGen) i =>
      match fields[i]? with
      | none => g
      | some f =>
        if !f.Exported env then g
        else
          let ft := f.type
          let ftname := qualifiedType ft
          let (g, ftname) :=
            if env.needWrapType ft then
              let ftname := "GoPy_" ++ name ++ "_field_" ++ fmtD (i + 1)
              let g := g.Printf ("//export " ++ ftname ++ "\n")
              let g := g.Printf ("type " ++ ftname ++ " unsafe.Pointer\n\n")
              (g, ftname)
            else (g, ftname)
          let g := g.Printf ("//export GoPy_" ++ name ++ "_getter_" ++ fmtD (i + 1) ++ "\n")
          let g := g.Printf ("func GoPy_" ++ name ++ "_getter_" ++ fmtD (i + 1) ++
            "(self GoPy_" ++ name ++ ") " ++ ftname ++ " \x7b\n")
          let g := g.Indent
          let g := g.Printf ("ret := (*" ++ (pkgname ++ "." ++ name) ++ ")(unsafe.Pointer(self))\n")
          let g :=
            if env.needWrapType f.type then
              g.Printf (env.cgotype f.type ++ "(unsafe.Pointer(&ret." ++ f.name ++ "))\n")
            else
              g.Printf ("return ret." ++ f.name ++ "\n")
          let g := g.Outdent
          g.Printf "\x7d\n\n")
    g
  let g := g.Printf ("//export GoPy_" ++ name ++ "_new\n")
  let g := g.Printf ("func GoPy_" ++ name ++ "_new() GoPy_" ++ name ++ " \x7b\n")
  let g := g.Indent
  let g := g.Printf ("return (GoPy_" ++ name ++ ")(unsafe.Pointer(&" ++ pkgname ++ "." ++
    name ++ "\x7b\x7d))\n")
  let g := g.Outdent
  g.Printf "\x7d\n\n"

/-- How the loop of `gen` ends: it runs to its end, or a `panic` stops it at an
object, in the state reached before that object. -/
inductive LoopEnd where
  | done (g : goGen)
  | panic (g : goGen) (obj : Object)
deriving DecidableEq

/-- The loop of `gen` over `scope.Names()` (lines 65 to 103); `debugf` writes to
the debug log only and is left out. -/
def genLoop (env : Env) (g : goGen) : List Object → LoopEnd
  | [] => .done g
  | obj :: rest =>
    if !obj.Exported env then genLoop env g rest
    else
      match obj with
      | .Const _ => .panic g obj
      | .Var _ => .panic g obj
      | .Func name sig => genLoop env (genFunc env g name sig) rest
      | .TypeName name decl =>
        match decl with
        | .Struct fields => genLoop env (genStruct env g name fields) rest
        | .Interface => .panic g obj
        | .Other _ => .panic g obj
      | .Other _ => .panic g obj

/-- How a call of `gen` ends: it returns an `error` (`none` is `nil`), or it
panics with "not yet supported" at an object. -/
inductive GenEnd where
  | returned (g : goGen) (err : Option ErrorList)
  | panic (g : goGen) (obj : Object)
deriving DecidableEq

/-- The method `goGen.gen`. -/
def gen (env : Env) (g : goGen) : GenEnd :=
  let g := genPreamble env g
  match genLoop env g g.pkg.pkg.scope with
  | .panic g obj => .panic g obj
  | .done g =>
    let g := g.Printf "// buildmode=c-shared needs a 'main'\n\nfunc main() \x7b\x7d\n"
    let g := g.Printf "// tickle cgo\nfunc init() \x7b\n"
    let g := g.Indent
    let g := g.Printf ("str := C.CString(" ++ env.quote g.pkg.Name ++ ")\n")
    let g := g.Printf "C.free(unsafe.Pointer(str))\n"
    let g := g.Outdent
    let g := g.Printf "\x7d\n"
    if g.err.length > 0 then .returned g (some g.err) else .returned g none

/-- The state in which a generator starts: an empty sink at level 0 and no
error. -/
def newGoGen (pkg : Package) : goGen :=
  { printer := { buf := "", indent := 0 }, pkg := pkg, err := [] }

/-- The state in which a call of `gen` ends. -/
def GenEnd.state : GenEnd → goGen
  | .returned g _ => g
  | .panic g _ => g

/-- The text that a call of `gen` has emitted when it ends. -/
def GenEnd.text (r : GenEnd) : String := r.state.printer.buf

/-! ## Closed forms of the emitted text -/

/-- The synthetic local of index `i`. -/
def localName (i : Nat) : String := "_gopy_" ++ fmt03d i

/-- The expression that the return statement lists for the result `res` of index `i`. -/
def returnExpr (env : Env) (i : Nat) (res : Var) : String :=
  (if env.resNeedWrap res then env.resCgotype res ++ "(unsafe.Pointer(&" else "") ++
  (localName i ++ " /* " ++ env.resGoSyntax res ++ " " ++
    env.typeString res.type.Underlying ++ " */") ++
  (if env.resNeedWrap res then "))" else "")

/-- Lines, each ended by a newline. -/
def unlines (ls : List String) : String := String.join (ls.map (fun l => l ++ "\n"))

/-- The line of the call in the body of a function wrapper. -/
def callLine (pkgName name : String) (sig : Signature) : String :=
  ", ".intercalate ((List.range sig.results.length).map localName) ++
  (if sig.results.length > 0 then " := " else "") ++
  pkgName ++ "." ++ name ++ "(" ++ ", ".intercalate (sig.params.map Var.name) ++ ")"

/-- The line of the return statement in the body of a function wrapper. -/
def returnLine (env : Env) (sig : Signature) : String :=
  "return " ++ ", ".intercalate (sig.results.enum.map (fun p => returnExpr env p.1 p.2))

/-- The lines of the wrapper of a function. -/
def funcLines (env : Env) (pkg : Package) (name : String) (sig : Signature) : List String :=
  ["",
   "//export GoPy_" ++ name,
   "// GoPy_" ++ name ++ " wraps " ++ FullName pkg.pkg name,
   "func GoPy_" ++ name ++ "(" ++
     ", ".intercalate (sig.params.map (fun v => v.name ++ " " ++ qualifiedType v.type)) ++ ")" ++
     genFuncRet sig ++ "\x7b",
   callLine pkg.Name name sig] ++
  (if sig.results.length ≤ 0 then [] else [returnLine env sig]) ++
  ["\x7d", ""]

/-- The lines that `genStruct` emits for the field `f` at 0-based position `i`. -/
def fieldLines (env : Env) (pkgname name : String) (i : Nat) (f : Var) : List String :=
  if !f.Exported env then []
  else
    (if env.needWrapType f.type then
      ["//export GoPy_" ++ name ++ "_field_" ++ fmtD (i + 1),
       "type GoPy_" ++ name ++ "_field_" ++ fmtD (i + 1) ++ " unsafe.Pointer",
       ""]
     else []) ++
    ["//export GoPy_" ++ name ++ "_getter_" ++ fmtD (i + 1),
     "func GoPy_" ++ name ++ "_getter_" ++ fmtD (i + 1) ++ "(self GoPy_" ++ name ++ ") " ++
       (if env.needWrapType f.type then "GoPy_" ++ name ++ "_field_" ++ fmtD (i + 1)
        else qualifiedType f.type) ++ " \x7b",
     "ret := (*" ++ pkgname ++ "." ++ name ++ ")(unsafe.Pointer(self))",
     (if env.needWrapType f.type then
        env.cgotype f.type ++ "(unsafe.Pointer(&ret." ++ f.name ++ "))"
      else "return ret." ++ f.name),
     "\x7d",
     ""]

/-- The lines of the constructor of a struct. -/
def ctorLines (pkgname name : String) : List String :=
  ["//export GoPy_" ++ name ++ "_new",
   "func GoPy_" ++ name ++ "_new() GoPy_" ++ name ++ " \x7b",
   "return (GoPy_" ++ name ++ ")(unsafe.Pointer(&" ++ pkgname ++ "." ++ name ++ "\x7b\x7d))",
   "\x7d",
   ""]

/-- The lines of the block of a struct. -/
def structLines (env : Env) (pkgname name : String) (fields : List Var) : List String :=
  ["//export GoPy_" ++ name, "type GoPy_" ++ name ++ " unsafe.Pointer", ""] ++
  (fields.enum.flatMap (fun p => fieldLines env pkgname name p.1 p.2)) ++
  ctorLines pkgname name

/-- The declarations that `gen` has a binder for: functions and struct types. -/
def supported : Object → Bool
  | .Func _ _ => true
  | .TypeName _ (.Struct _) => true
  | _ => false

/-- The lines of the block of a supported declaration. -/
def declLines (env : Env) (pkg : Package) : Object → List String
  | .Func name sig => funcLines env pkg name sig
  | .TypeName name (.Struct fields) => structLines env pkg.pkg.name name fields
  | _ => []

/-- The text that `gen` emits after the loop: the stub of `main` and `init`; `q`
is the quoted name of the package. -/
def trailer (q : String) : String :=
  "// buildmode=c-shared needs a 'main'\n\nfunc main() \x7b\x7d\n" ++
  "// tickle cgo\nfunc init() \x7b\n" ++
  "str := C.CString(" ++ q ++ ")\n" ++
  "C.free(unsafe.Pointer(str))\n" ++
  "\x7d\n"

/-- The value that a list of decimal digits denotes, from the accumulator `a`. -/
def digitsValue (a : Nat) (cs : List Char) : Nat :=
  cs.foldl (fun acc c => acc * 10 + (c.toNat - 48)) a

/-- The string has no newline. -/
def oneLine (s : String) : Bool := !s.data.contains '\n'

/-- The lines of a text: the pieces between newlines. -/
def textLines (s : String) : List String := (s.data.splitOn '\n').map String.mk

/-- The name that a line exports: the rest of a line that starts with `//export `. -/
def exportName? (line : String) : Option String :=
  if "//export ".data.isPrefixOf line.data then some ⟨line.data.drop 9⟩ else none

/-- The names of the `//export` lines of a text, in order. -/
def exportNames (s : String) : List String := (textLines s).filterMap exportName?

/-- The string has no newline and no slash, as an identifier or a type name. -/
def plain (s : String) : Bool := s.data.all (fun c => c != '\n' && c != '/')

/-- The strings that `genStruct` writes into the block of a struct are free of
newlines: the names of the package, of the struct and of its exported fields,
the translated type of an exported field that needs no wrapping, and the handle
type of one that does (which has no slash either). -/
def structClean (env : Env) (pkgname name : String) (fields : List Var) : Bool :=
  oneLine pkgname && oneLine name &&
  fields.all (fun f => !f.Exported env ||
    (oneLine f.name &&
      (if env.needWrapType f.type then plain (env.cgotype f.type)
       else oneLine (qualifiedType f.type))))

/-- The names that the lines of a field export: the field-wrapper type if the
type needs wrapping, then the getter; nothing for a non-exported field. -/
def fieldExports (env : Env) (name : String) (i : Nat) (f : Var) : List String :=
  if !f.Exported env then []
  else
    (if env.needWrapType f.type then ["GoPy_" ++ name ++ "_field_" ++ fmtD (i + 1)] else []) ++
    ["GoPy_" ++ name ++ "_getter_" ++ fmtD (i + 1)]

/-- The names that the block of a struct exports, in order. -/
def structExports (env : Env) (name : String) (fields : List Var) : List String :=
  ["GoPy_" ++ name] ++
  (fields.enum.flatMap (fun p => fieldExports env name p.1 p.2)) ++
  ["GoPy_" ++ name ++ "_new"]

/-- The export name is that of a getter of the struct `name`: it starts with
`GoPy_<name>_getter_`. -/
def isGetterOf (name : String) (n : String) : Bool :=
  ("GoPy_" ++ name ++ "_getter_").data.isPrefixOf n.data

/-- The raw positions (1-based, counting all fields) of the exported fields, in
the order of the fields. -/
def exportedPositions (env : Env) (fields : List Var) : List Nat :=
  (fields.enum.filter (fun p => p.2.Exported env)).map (fun p => p.1 + 1)

/-- The strings that `genFunc` writes into the wrapper of a function are free of
newlines: the name of the function, the names and translated types of its
parameters and results, and what the return statement writes for a result. -/
def funcClean (env : Env) (name : String) (sig : Signature) : Bool :=
  oneLine name &&
  sig.params.all (fun v => oneLine v.name && oneLine (qualifiedType v.type)) &&
  sig.results.all (fun v => oneLine v.name && oneLine (qualifiedType v.type) &&
    oneLine (env.resCgotype v) && oneLine (env.resGoSyntax v) &&
    oneLine (env.typeString v.type.Underlying))

/-- The strings that `gen` writes are free of newlines, and the name of the
package has no slash: the package is named by an identifier, and so are its
exported declarations and what they are made of. -/
def pkgClean (env : Env) (pkg : Package) : Bool :=
  plain pkg.pkg.name && oneLine pkg.pkg.path &&
  oneLine (env.quote pkg.pkg.path) && oneLine (env.quote pkg.Name) &&
  pkg.pkg.scope.all (fun o => !o.Exported env ||
    match o with
    | .Func name sig => funcClean env name sig
    | .TypeName name (.Struct fields) => structClean env pkg.pkg.name name fields
    | _ => true)

/-- The names that the block of a supported declaration exports, in order. -/
def declExports (env : Env) : Object → List String
  | .Func name _ => ["GoPy_" ++ name]
  | .TypeName name (.Struct fields) => structExports env name fields
  | _ => []

/-- The lines of the preamble. -/
def preambleLines (n q : String) : List String :=
  ["// Package main is an autogenerated binder stub for package " ++ n ++ ".",
   "// gopy gen -lang=go " ++ n,
   "//",
   "// File is generated by gopy gen. Do not edit.",
   "package main",
   "",
   "//#cgo pkg-config: python2 --cflags --libs",
   "//#include <stdlib.h>",
   "//#include <string.h>",
   "import \"C\"",
   "",
   "import (",
   "\t\"unsafe\"",
   "",
   "\t" ++ q,
   ")",
   "",
   "var _ = unsafe.Pointer(nil)",
   "",
   "// --- begin cgo helpers ---",
   "",
   "//export CGoPy_GoString",
   "func CGoPy_GoString(str *C.char) string \x7b ",
   "\treturn C.GoString(str)",
   "\x7d",
   "",
   "//export CGoPy_CString",
   "func CGoPy_CString(s string) *C.char \x7b",
   "\treturn C.CString(s)",
   "\x7d",
   "",
   "// --- end cgo helpers ---"]

/-- The lines of the trailer. -/
def trailerLines (q : String) : List String :=
  ["// buildmode=c-shared needs a 'main'",
   "",
   "func main() \x7b\x7d",
   "// tickle cgo",
   "func init() \x7b",
   "str := C.CString(" ++ q ++ ")",
   "C.free(unsafe.Pointer(str))",
   "\x7d"]

/-- The export name `x` is one that the block of the struct `s` derives from
the name of the struct: that of the constructor, of a field-wrapper type or of
a getter. -/
def IsDerived (s x : String) : Prop :=
  x = "GoPy_" ++ s ++ "_new" ∨
  ∃ k, x = "GoPy_" ++ s ++ "_field_" ++ fmtD k ∨ x = "GoPy_" ++ s ++ "_getter_" ++ fmtD k

/-- What the caller of `gen` gets back: `nil`, the error list, or a panic at an
object. -/
inductive Outcome where
  | nil
  | err (e : ErrorList)
  | panic (obj : Object)
deriving DecidableEq

/-- How a call of `gen` ends, without the state of the generator. -/
def GenEnd.outcome : GenEnd → Outcome
  | .returned _ none => .nil
  | .returned _ (some e) => .err e
  | .panic _ obj => .panic obj

/-- The raw positions (1-based, counting all fields) of the exported fields whose
type needs wrapping, in the order of the fields. -/
def wrappedPositions (env : Env) (fields : List Var) : List Nat :=
  (fields.enum.filter (fun p => p.2.Exported env && env.needWrapType p.2.type)).map
    (fun p => p.1 + 1)

/-! ## Examples -/

/-- The upper-case letters of the blocks Basic Latin and Latin-1 Supplement:
`A` to `Z`, `À` to `Ö` and `Ø` to `Þ`. On these two blocks it is
`unicode.IsUpper`. -/
def upperLatin (c : Char) : Bool :=
  (65 ≤ c.toNat && c.toNat ≤ 90) || (192 ≤ c.toNat && c.toNat ≤ 214) ||
  (216 ≤ c.toNat && c.toNat ≤ 222)

/-- Modelled from the spec: an instance of the helper functions that are not in
`gengo.go`. A type needs wrapping when it is a named record and not when it is
a primitive; `isUpper` is `unicode.IsUpper` on the Latin letters up to U+00FF;
a handle expression is built with the handle type, which is the
translated type; `quote` is exact for a string without a character that Go
escapes; the two verbs of the comment in a return statement are stand-ins. -/
def specEnv : Env :=
  { isUpper := upperLatin,
    quote := fun s => "\"" ++ s ++ "\"",
    needWrapType := fun t =>
      match t with
      | .Named _ (.Composite .Struct) => true
      | _ => false,
    cgotype := qualifiedType,
    resNeedWrap := fun v =>
      match v.type with
      | .Named _ (.Composite .Struct) => true
      | _ => false,
    resCgotype := fun v => qualifiedType v.type,
    resGoSyntax := fun v => "&bind.Var\x7b" ++ v.name ++ "\x7d",
    typeString := fun u =>
      match u with
      | .Basic n => n
      | .Composite c => c.goSyntax }

/-- The text that the binder of a declaration emits on its own, into an empty
sink: `genFunc` for a function, `genStruct` for a struct type. -/
def blockOf (env : Env) (pkg : Package) : Object → String
  | .Func name sig => (genFunc env (newGoGen pkg) name sig).printer.buf
  | .TypeName name (.Struct fields) => (genStruct env (newGoGen pkg) name fields).printer.buf
  | _ => ""

/-- The object is a function. -/
def Object.isFunc : Object → Bool
  | .Func _ _ => true
  | _ => false

/-- The object is a type name of a struct type. -/
def Object.isStruct : Object → Bool
  | .TypeName _ (.Struct _) => true
  | _ => false

/-- A package with an exported struct `S` and an exported function `S_new`. -/
def pkgSNew : Package :=
  ⟨⟨"p", "x/p", [.TypeName "S" (.Struct []), .Func "S_new" ⟨[], []⟩]⟩⟩

/-- A package with an exported interface type `A` and an exported function `F`. -/
def pkgIface : Package :=
  ⟨⟨"p", "x/p", [.TypeName "A" .Interface, .Func "F" ⟨[], []⟩]⟩⟩

/-- A package with an exported function `F(xs []int)`. -/
def pkgSlice : Package :=
  ⟨⟨"p", "x/p", [.Func "F" ⟨[⟨"xs", .Composite .Slice⟩], []⟩]⟩⟩

/-- A package with an exported struct `A` and an exported function `B`. -/
def pkgAB : Package :=
  ⟨⟨"p", "x/p", [.TypeName "A" (.Struct []), .Func "B" ⟨[], []⟩]⟩⟩

/-- A package with non-exported declarations only, one of each kind. -/
def pkgHidden : Package :=
  ⟨⟨"p", "x/p", [.Const "c", .Func "f" ⟨[], []⟩, .TypeName "i" .Interface,
    .TypeName "s" (.Struct [⟨"A", .Basic "int"⟩]), .TypeName "t" (.Other (.Basic "int")),
    .Var "v"]⟩⟩

/-- The fields `[A int, b int, C OtherStruct]`. -/
def fieldsAbC : List Var :=
  [⟨"A", .Basic "int"⟩, ⟨"b", .Basic "int"⟩, ⟨"C", .Named "OtherStruct" (.Composite .Struct)⟩]

/-- The fields `[Été int, été int, Z int]`: the first name starts with the
upper-case letter U+00C9, the second with the lower-case letter U+00E9. -/
def fieldsLatin : List Var :=
  [⟨"\u00c9t\u00e9", .Basic "int"⟩, ⟨"\u00e9t\u00e9", .Basic "int"⟩, ⟨"Z", .Basic "int"⟩]

/-- The signature `func(a int, b string) (x int, y string)`. -/
def sigNamed2 : Signature :=
  ⟨[⟨"a", .Basic "int"⟩, ⟨"b", .Basic "string"⟩], [⟨"x", .Basic "int"⟩, ⟨"y", .Basic "string"⟩]⟩

/-- A package with an exported function `New` and an exported struct `S` with the
fields `[A int, b int, C OtherStruct]`. -/
def pkgNewS : Package :=
  ⟨⟨"p", "x/p", [.Func "New" ⟨[], []⟩, .TypeName "S" (.Struct fieldsAbC)]⟩⟩

/-- The signature `func() (int, OtherStruct)`: two unnamed results, the second of
a named struct type. -/
def sigIntStruct : Signature :=
  ⟨[], [⟨"", .Basic "int"⟩, ⟨"", .Named "OtherStruct" (.Composite .Struct)⟩]⟩

/-- A package like `pkgSlice` with non-exported declarations of every kind around
its exported function. -/
def pkgSliceHidden : Package :=
  ⟨⟨"p", "x/p", [.Func "F" ⟨[⟨"xs", .Composite .Slice⟩], []⟩, .Const "c",
    .Func "f" ⟨[], []⟩, .TypeName "i" .Interface, .TypeName "t" (.Other (.Basic "int")),
    .Var "v"]⟩⟩

/-! ## Lemmas: the generator in closed form -/

theorem Printf_Printf (g : goGen) (a b : String) : (g.Printf a).Printf b = g.Printf (a ++ b) := by
  simp [goGen.Printf, printer.Printf, String.append_assoc]

theorem Printf_empty (g : goGen) : g.Printf "" = g := by
  cases g with
  | mk p k e => cases p; simp [goGen.Printf, printer.Printf]

theorem Indent_Printf (g : goGen) (a : String) : (g.Printf a).Indent = g.Indent.Printf a := rfl

theorem Outdent_Printf (g : goGen) (a : String) : (g.Printf a).Outdent = g.Outdent.Printf a := rfl

theorem Outdent_Indent (g : goGen) : g.Indent.Outdent = g := by
  cases g with
  | mk p k e => cases p; simp [goGen.Indent, goGen.Outdent, printer.Indent, printer.Outdent]

@[simp]
theorem Printf_pkg (g : goGen) (a : String) : (g.Printf a).pkg = g.pkg := rfl
@[simp]
theorem Indent_pkg (g : goGen) : g.Indent.pkg = g.pkg := rfl

theorem foldl_Printf {α : Type} (t : α → String) (l : List α) (g : goGen) :
    l.foldl (fun g a => g.Printf (t a)) g = g.Printf (String.join (l.map t)) := by
  induction l generalizing g with
  | nil => simp [String.join, Printf_empty]
  | cons a l ih =>
    rw [List.foldl_cons, ih, Printf_Printf]
    congr 1
    apply String.ext
    simp

theorem map_range_lookup {α β : Type} (l : List α) (F : Nat → Option α → β) :
    (List.range l.length).map (fun i => F i l[i]?) = l.enum.map (fun p => F p.1 (some p.2)) := by
  apply List.ext_getElem
  · simp
  · intro i h1 h2
    simp at h1
    simp [h1]

theorem intercalate_go (acc s : String) (l : List String) :
    String.intercalate.go acc s l = acc ++ String.join (l.map (fun a => s ++ a)) := by
  induction l generalizing acc with
  | nil => simp [String.intercalate.go, String.join]
  | cons a l ih =>
    rw [String.intercalate.go, ih]
    apply String.ext
    simp [String.data_append]

theorem intercalate_cons (s a : String) (l : List String) :
    s.intercalate (a :: l) = a ++ String.join (l.map (fun a => s ++ a)) := by
  rw [String.intercalate, intercalate_go]

theorem foldl_snoc_eq_map {α β : Type} (f : α → β) (l : List α) (acc : List β) :
    l.foldl (fun str a => str ++ [f a]) acc = acc ++ l.map f := by
  induction l generalizing acc with
  | nil => simp
  | cons a l ih => simp [ih]

/-- The loop of `tupleString` collects one entry per element, in order. -/
theorem tupleString_eq (tuple : List Var) :
    tupleString tuple =
      ", ".intercalate (tuple.map (fun v => v.name ++ " " ++ qualifiedType v.type)) := by
  unfold tupleString
  split
  · next h =>
    have : tuple = [] := by
      cases tuple with
      | nil => rfl
      | cons a l => simp at h
    subst this
    rfl
  · have h1 : ∀ (acc : List String),
        (List.range tuple.length).foldl
          (fun (str : List String) i =>
            match tuple[i]? with
            | some v => str ++ [v.name ++ " " ++ qualifiedType v.type]
            | none => str) acc
        = ((List.range tuple.length).map (fun i => tuple[i]?)).foldl
          (fun (str : List String) o =>
            match o with
            | some v => str ++ [v.name ++ " " ++ qualifiedType v.type]
            | none => str) acc := by
      intro acc
      rw [List.foldl_map]
    have h2 : (List.range tuple.length).map (fun i => tuple[i]?) = tuple.map some := by
      have := map_range_lookup tuple (fun _ o => o)
      simp only at this
      rw [this]
      apply List.ext_getElem <;> simp
    simp only [h1, h2, List.foldl_map]
    rw [foldl_snoc_eq_map]
    simp

theorem join_sep_first_range (n : Nat) (t : Nat → String) (s : String) :
    String.join ((List.range n).map (fun i => (if i > 0 then s else "") ++ t i)) =
      s.intercalate ((List.range n).map t) := by
  cases n with
  | zero => rfl
  | succ n =>
    rw [List.range_succ_eq_map]
    simp only [List.map_cons, List.map_map, intercalate_cons]
    apply String.ext
    simp [String.data_append, Function.comp_def]

theorem map_enumFrom_pos {α : Type} (t : Nat → α → String) (s : String) (l : List α) (k : Nat)
    (hk : 0 < k) :
    (l.enumFrom k).map (fun p => (if p.1 > 0 then s else "") ++ t p.1 p.2) =
      (l.enumFrom k).map (fun p => s ++ t p.1 p.2) := by
  induction l generalizing k with
  | nil => rfl
  | cons a l ih =>
    simp only [List.enumFrom_cons, List.map_cons]
    rw [ih (k + 1) (Nat.succ_pos k)]
    simp [hk]

theorem join_sep_first_enum {α : Type} (t : Nat → α → String) (s : String) (l : List α) :
    String.join (l.enum.map (fun p => (if p.1 > 0 then s else "") ++ t p.1 p.2)) =
      s.intercalate (l.enum.map (fun p => t p.1 p.2)) := by
  cases l with
  | nil => rfl
  | cons a l =>
    simp only [List.enum, List.enumFrom_cons, List.map_cons, intercalate_cons]
    rw [map_enumFrom_pos t s l (0 + 1) (by decide)]
    apply String.ext
    simp [String.data_append, Function.comp_def]

theorem join_sep_last {α : Type} (t : α → String) (s : String) (l : List α) (k n : Nat)
    (hn : n = k + l.length) :
    String.join ((l.enumFrom k).map (fun p => t p.2 ++ (if p.1 + 1 < n then s else ""))) =
      s.intercalate (l.map t) := by
  induction l generalizing k with
  | nil => rfl
  | cons a l ih =>
    simp only [List.enumFrom_cons, List.map_cons]
    have ih1 := ih (k + 1) (by simp at hn; omega)
    cases l with
    | nil =>
      simp at hn
      apply String.ext
      simp [String.data_append, hn, String.intercalate, String.intercalate.go]
    | cons b l =>
      rw [intercalate_cons]
      simp only [List.map_cons] at ih1 ⊢
      rw [intercalate_cons] at ih1
      have hlt : k + 1 < n := by simp at hn; omega
      apply String.ext
      have ih2 := congrArg String.data ih1
      simp only [String.data_join, String.data_append, List.map_cons, List.flatten_cons,
        List.map_map, List.enumFrom_cons] at ih2 ⊢
      simp only [hlt, if_true]
      simp only [List.append_assoc] at ih2 ⊢
      rw [ih2]

theorem Printf_congr (g : goGen) (a b : String) (h : a.data = b.data) :
    g.Printf a = g.Printf b := by
  rw [String.ext h]

theorem locals_loop (n : Nat) (g : goGen) :
    (List.range n).foldl
      (fun (g : goGen) i =>
        let g := if i > 0 then g.Printf ", " else g
        g.Printf ("_gopy_" ++ fmt03d i)) g =
    g.Printf (", ".intercalate ((List.range n).map localName)) := by
  have hb : (fun (g : goGen) i =>
        let g := if i > 0 then g.Printf ", " else g
        g.Printf ("_gopy_" ++ fmt03d i)) =
      (fun (g : goGen) i => g.Printf ((if i > 0 then ", " else "") ++ localName i)) := by
    funext g i
    by_cases h : i > 0
    · simp [h, Printf_Printf, localName]
    · have h0 : ("" : String) ++ localName i = localName i := by
        apply String.ext; simp [String.data_append]
      simp [h, localName] at h0 ⊢
  rw [hb, foldl_Printf, join_sep_first_range]

theorem args_loop (args : List Var) (g : goGen) :
    (List.range args.length).foldl
      (fun (g : goGen) i =>
        match args[i]? with
        | some arg =>
          let tail := if i + 1 < args.length then ", " else ""
          g.Printf (arg.name ++ tail)
        | none => g) g =
    g.Printf (", ".intercalate (args.map Var.name)) := by
  have hb : (fun (g : goGen) i =>
        match args[i]? with
        | some arg =>
          let tail := if i + 1 < args.length then ", " else ""
          g.Printf (arg.name ++ tail)
        | none => g) =
      (fun (g : goGen) i => g.Printf
        ((fun (i : Nat) (o : Option Var) =>
          match o with
          | some arg => arg.name ++ (if i + 1 < args.length then ", " else "")
          | none => "") i args[i]?)) := by
    funext g i
    cases args[i]? with
    | none => simp [Printf_empty]
    | some a => simp
  rw [hb, foldl_Printf]
  have hm := map_range_lookup args (fun (i : Nat) (o : Option Var) =>
          match o with
          | some arg => arg.name ++ (if i + 1 < args.length then ", " else "")
          | none => "")
  simp only at hm ⊢
  rw [hm]
  exact congrArg _ (join_sep_last Var.name ", " args 0 args.length (by simp))

theorem return_loop (env : Env) (results : List Var) (g : goGen) :
    (List.range results.length).foldl
      (fun (g : goGen) i =>
        match results[i]? with
        | some res =>
          let g := if i > 0 then g.Printf ", " else g
          let g := if env.resNeedWrap res then
            g.Printf (env.resCgotype res ++ "(unsafe.Pointer(&") else g
          let g := g.Printf ("_gopy_" ++ fmt03d i ++ " /* " ++ env.resGoSyntax res ++ " " ++
            env.typeString res.type.Underlying ++ " */")
          if env.resNeedWrap res then g.Printf "))" else g
        | none => g) g =
    g.Printf (", ".intercalate (results.enum.map (fun p => returnExpr env p.1 p.2))) := by
  have hb : (fun (g : goGen) i =>
        match results[i]? with
        | some res =>
          let g := if i > 0 then g.Printf ", " else g
          let g := if env.resNeedWrap res then
            g.Printf (env.resCgotype res ++ "(unsafe.Pointer(&") else g
          let g := g.Printf ("_gopy_" ++ fmt03d i ++ " /* " ++ env.resGoSyntax res ++ " " ++
            env.typeString res.type.Underlying ++ " */")
          if env.resNeedWrap res then g.Printf "))" else g
        | none => g) =
      (fun (g : goGen) i => g.Printf
        ((fun (i : Nat) (o : Option Var) =>
          match o with
          | some res => (if i > 0 then ", " else "") ++ returnExpr env i res
          | none => "") i results[i]?)) := by
    funext g i
    cases results[i]? with
    | none => simp [Printf_empty]
    | some a =>
      cases hw : env.resNeedWrap a <;> by_cases h : i > 0 <;>
        simp only [h, hw, if_true, if_false, Bool.false_eq_true, Printf_Printf, returnExpr,
          localName] <;>
        apply Printf_congr <;> simp [String.data_append]
  rw [hb, foldl_Printf]
  have hm := map_range_lookup results (fun (i : Nat) (o : Option Var) =>
          match o with
          | some res => (if i > 0 then ", " else "") ++ returnExpr env i res
          | none => "")
  simp only at hm ⊢
  rw [hm]
  exact congrArg _ (join_sep_first_enum (returnExpr env) ", " results)

theorem genFuncBody_eq (env : Env) (g : goGen) (name : String) (sig : Signature) :
    genFuncBody env g name sig =
      g.Printf (unlines ([callLine g.pkg.Name name sig] ++
        (if sig.results.length ≤ 0 then [] else [returnLine env sig]))) := by
  unfold genFuncBody
  simp only [newVars, locals_loop, args_loop, return_loop]
  by_cases h : sig.results.length ≤ 0
  · have h0 : ¬ sig.results.length > 0 := by omega
    simp only [h, h0, if_true, if_false, Printf_Printf, Printf_pkg]
    congr 1
    apply String.ext
    simp [unlines, callLine, String.data_append, h0]
  · have h0 : sig.results.length > 0 := by omega
    simp only [h, h0, if_true, if_false, Printf_Printf, Printf_pkg]
    congr 1
    apply String.ext
    simp [unlines, callLine, returnLine, String.data_append, h0]

theorem genFunc_eq (env : Env) (g : goGen) (name : String) (sig : Signature) :
    genFunc env g name sig = g.Printf (unlines (funcLines env g.pkg name sig)) := by
  unfold genFunc
  simp only [genFuncBody_eq, Indent_Printf, Outdent_Printf, Outdent_Indent, Printf_Printf,
    Printf_pkg, Indent_pkg, tupleString_eq]
  congr 1
  apply String.ext
  by_cases h : sig.results.length ≤ 0 <;>
    simp [unlines, funcLines, String.data_append, h]

theorem unlines_append (a b : List String) : unlines (a ++ b) = unlines a ++ unlines b := by
  apply String.ext
  simp [unlines, String.data_append]

theorem unlines_nil : unlines [] = "" := rfl

theorem join_map_unlines {α : Type} (f : α → List String) (l : List α) :
    String.join (l.map (fun a => unlines (f a))) = unlines (l.flatMap f) := by
  induction l with
  | nil => rfl
  | cons a l ih =>
    rw [List.flatMap_cons, unlines_append, ← ih]
    apply String.ext
    simp [String.data_append]

theorem genStruct_eq (env : Env) (g : goGen) (name : String) (fields : List Var) :
    genStruct env g name fields =
      g.Printf (unlines (structLines env g.pkg.pkg.name name fields)) := by
  unfold genStruct
  have hb : ∀ pkgname : String, (fun (g : goGen) i =>
      match fields[i]? with
      | none => g
      | some f =>
        if !f.Exported env then g
        else
          let ft := f.type
          let ftname := qualifiedType ft
          let (g, ftname) :=
            if env.needWrapType ft then
              let ftname := "GoPy_" ++ name ++ "_field_" ++ fmtD (i + 1)
              let g := g.Printf ("//export " ++ ftname ++ "\n")
              let g := g.Printf ("type " ++ ftname ++ " unsafe.Pointer\n\n")
              (g, ftname)
            else (g, ftname)
          let g := g.Printf ("//export GoPy_" ++ name ++ "_getter_" ++ fmtD (i + 1) ++ "\n")
          let g := g.Printf ("func GoPy_" ++ name ++ "_getter_" ++ fmtD (i + 1) ++
            "(self GoPy_" ++ name ++ ") " ++ ftname ++ " \x7b\n")
          let g := g.Indent
          let g := g.Printf ("ret := (*" ++ (pkgname ++ "." ++ name) ++ ")(unsafe.Pointer(self))\n")
          let g :=
            if env.needWrapType f.type then
              g.Printf (env.cgotype f.type ++ "(unsafe.Pointer(&ret." ++ f.name ++ "))\n")
            else
              g.Printf ("return ret." ++ f.name ++ "\n")
          let g := g.Outdent
          g.Printf "\x7d\n\n") =
      (fun (g : goGen) i => g.Printf
        ((fun (i : Nat) (o : Option Var) =>
          match o with
          | some f => unlines (fieldLines env pkgname name i f)
          | none => "") i fields[i]?)) := by
    intro pkgname
    funext g i
    cases fields[i]? with
    | none => simp [Printf_empty]
    | some f =>
      cases he : f.Exported env <;> cases hw : env.needWrapType f.type <;>
        simp only [he, hw, if_true, if_false, Bool.false_eq_true, Bool.not_true, Bool.not_false,
          Printf_Printf, Indent_Printf, Outdent_Printf, Outdent_Indent, fieldLines] <;>
        first
          | (rw [unlines_nil, Printf_empty])
          | (apply Printf_congr; simp [unlines, String.data_append])
  simp only [hb]
  simp only [foldl_Printf, Printf_Printf, Indent_Printf, Outdent_Printf, Outdent_Indent,
    Printf_pkg]
  have hm := map_range_lookup fields (fun (i : Nat) (o : Option Var) =>
          match o with
          | some f => unlines (fieldLines env g.pkg.pkg.name name i f)
          | none => "")
  simp only at hm
  rw [hm, join_map_unlines, structLines, unlines_append, unlines_append]
  apply Printf_congr
  simp [unlines, ctorLines, String.data_append]

@[simp]
theorem Printf_err (g : goGen) (a : String) : (g.Printf a).err = g.err := rfl

theorem genLoop_done (env : Env) (objs : List Object) (g : goGen)
    (h : ∀ o ∈ objs, o.Exported env = true → supported o = true) :
    genLoop env g objs = .done (g.Printf (unlines
      ((objs.filter (Object.Exported env)).flatMap (declLines env g.pkg)))) := by
  induction objs generalizing g with
  | nil => simp [genLoop, unlines_nil, Printf_empty]
  | cons o rest ih =>
    have hrest : ∀ o ∈ rest, o.Exported env = true → supported o = true :=
      fun o ho => h o (List.mem_cons_of_mem _ ho)
    have ho := h o (List.mem_cons_self _ _)
    unfold genLoop
    cases he : o.Exported env with
    | false => simp [ih _ hrest, he]
    | true =>
      have hs := ho he
      cases o with
      | Const n => simp [supported] at hs
      | Var n => simp [supported] at hs
      | Other n => simp [supported] at hs
      | Func n sig =>
        simp [ih _ hrest, he, genFunc_eq, Printf_Printf, declLines, unlines_append]
      | TypeName n decl =>
        cases decl with
        | Interface => simp [supported] at hs
        | Other u => simp [supported] at hs
        | Struct fields =>
          simp [ih _ hrest, he, genStruct_eq, Printf_Printf, declLines, unlines_append]

theorem genLoop_panic (env : Env) (pre post : List Object) (o : Object) (g : goGen)
    (h : ∀ o ∈ pre, o.Exported env = true → supported o = true)
    (he : o.Exported env = true) (hs : supported o = false) :
    genLoop env g (pre ++ o :: post) = .panic (g.Printf (unlines
      ((pre.filter (Object.Exported env)).flatMap (declLines env g.pkg)))) o := by
  induction pre generalizing g with
  | nil =>
    simp only [List.nil_append, List.filter_nil, List.flatMap_nil, unlines_nil, Printf_empty]
    unfold genLoop
    cases o with
    | Const n => simp [he]
    | Var n => simp [he]
    | Other n => simp [he]
    | Func n sig => simp [supported] at hs
    | TypeName n decl =>
      cases decl with
      | Interface => simp [he]
      | Other u => simp [he]
      | Struct fields => simp [supported] at hs
  | cons p rest ih =>
    have hrest : ∀ o ∈ rest, o.Exported env = true → supported o = true :=
      fun o ho => h o (List.mem_cons_of_mem _ ho)
    have hp := h p (List.mem_cons_self _ _)
    rw [List.cons_append]
    unfold genLoop
    cases hpe : p.Exported env with
    | false => simp [ih _ hrest, hpe]
    | true =>
      have hps := hp hpe
      cases p with
      | Const n => simp [supported] at hps
      | Var n => simp [supported] at hps
      | Other n => simp [supported] at hps
      | Func n sig =>
        simp [ih _ hrest, hpe, genFunc_eq, Printf_Printf, declLines, unlines_append]
      | TypeName n decl =>
        cases decl with
        | Interface => simp [supported] at hps
        | Other u => simp [supported] at hps
        | Struct fields =>
          simp [ih _ hrest, hpe, genStruct_eq, Printf_Printf, declLines, unlines_append]

theorem gen_returned (env : Env) (g : goGen)
    (h : ∀ o ∈ g.pkg.pkg.scope, o.Exported env = true → supported o = true) :
    gen env g = .returned
      (g.Printf (goPreamble g.pkg.pkg.name (env.quote g.pkg.pkg.path) ++
        unlines ((g.pkg.pkg.scope.filter (Object.Exported env)).flatMap (declLines env g.pkg)) ++
        trailer (env.quote g.pkg.Name)))
      (if g.err.length > 0 then some g.err else none) := by
  unfold gen
  simp only [genPreamble, Printf_pkg]
  rw [genLoop_done env _ _ h]
  simp only [Printf_Printf, Indent_Printf, Outdent_Printf, Outdent_Indent, Printf_pkg, Printf_err]
  have ht : ∀ a b c : goGen, ∀ e : Option ErrorList, a = b →
      (GenEnd.returned a e) = (GenEnd.returned b e) := by
    intro a b c e hab; rw [hab]
  split <;> (apply ht _ _ g; apply Printf_congr; simp [trailer, String.data_append])

theorem gen_panic (env : Env) (g : goGen) (pre post : List Object) (o : Object)
    (hscope : g.pkg.pkg.scope = pre ++ o :: post)
    (h : ∀ o ∈ pre, o.Exported env = true → supported o = true)
    (he : o.Exported env = true) (hs : supported o = false) :
    gen env g = .panic
      (g.Printf (goPreamble g.pkg.pkg.name (env.quote g.pkg.pkg.path) ++
        unlines ((pre.filter (Object.Exported env)).flatMap (declLines env g.pkg)))) o := by
  unfold gen
  simp only [genPreamble, Printf_pkg]
  rw [hscope, genLoop_panic env pre post o _ h he hs]
  simp only [Printf_Printf, Printf_pkg]

theorem digitChar_isDigit (d : Nat) (h : d < 10) : (Nat.digitChar d).isDigit = true := by
  interval_cases d <;> rfl

theorem digitChar_val (d : Nat) (h : d < 10) : (Nat.digitChar d).toNat - 48 = d := by
  interval_cases d <;> rfl

theorem toDigitsCore_isDigit (f n : Nat) (ds : List Char) :
    ∀ c ∈ Nat.toDigitsCore 10 f n ds, c.isDigit = true ∨ c ∈ ds := by
  induction f generalizing n ds with
  | zero => intro c hc; simp [Nat.toDigitsCore] at hc; exact Or.inr hc
  | succ f ih =>
    intro c hc
    simp only [Nat.toDigitsCore] at hc
    split at hc
    · rcases List.mem_cons.1 hc with h | h
      · exact Or.inl (h ▸ digitChar_isDigit _ (Nat.mod_lt _ (by decide)))
      · exact Or.inr h
    · rcases ih _ _ c hc with h | h
      · exact Or.inl h
      · rcases List.mem_cons.1 h with h | h
        · exact Or.inl (h ▸ digitChar_isDigit _ (Nat.mod_lt _ (by decide)))
        · exact Or.inr h

theorem toDigitsCore_value (f n : Nat) (ds : List Char) (h : n < f) :
    digitsValue 0 (Nat.toDigitsCore 10 f n ds) = digitsValue n ds := by
  induction f generalizing n ds with
  | zero => omega
  | succ f ih =>
    simp only [Nat.toDigitsCore]
    split
    · next h0 =>
      have hn : n % 10 = n := by omega
      have hv := digitChar_val (n % 10) (Nat.mod_lt n (by decide : 10 > 0))
      rw [hn] at hv
      simp only [digitsValue, List.foldl_cons, Nat.zero_mul, Nat.zero_add, hv, hn]
    · next h0 =>
      have hlt : n / 10 < f := by omega
      rw [ih _ _ hlt]
      simp only [digitsValue, List.foldl_cons, digitChar_val _ (Nat.mod_lt n (by decide : 10 > 0))]
      have : n / 10 * 10 + n % 10 = n := by omega
      rw [this]

theorem fmtD_data (n : Nat) : (fmtD n).data = Nat.toDigits 10 n := rfl

theorem fmtD_isDigit (n : Nat) : ∀ c ∈ (fmtD n).data, c.isDigit = true := by
  intro c hc
  rw [fmtD_data, Nat.toDigits] at hc
  rcases toDigitsCore_isDigit _ _ _ c hc with h | h
  · exact h
  · simp at h

theorem fmtD_value (n : Nat) : digitsValue 0 (fmtD n).data = n := by
  rw [fmtD_data, Nat.toDigits, toDigitsCore_value _ _ _ (Nat.lt_succ_self n)]
  rfl

theorem fmtD_injective (a b : Nat) (h : fmtD a = fmtD b) : a = b := by
  have := congrArg (fun s => digitsValue 0 s.data) h
  simpa [fmtD_value] using this

theorem mem_toDigitsCore (f m : Nat) (ds : List Char) (c : Char) (hc : c ∈ ds) :
    c ∈ Nat.toDigitsCore 10 f m ds := by
  induction f generalizing m ds with
  | zero => simpa [Nat.toDigitsCore] using hc
  | succ f ih =>
    simp only [Nat.toDigitsCore]
    split
    · exact List.mem_cons_of_mem _ hc
    · exact ih _ _ (List.mem_cons_of_mem _ hc)

theorem fmtD_ne_nil (n : Nat) : (fmtD n).data ≠ [] := by
  rw [fmtD_data, Nat.toDigits]
  intro h
  have hm : Nat.digitChar (n % 10) ∈ Nat.toDigitsCore 10 (n + 1) n [] := by
    simp only [Nat.toDigitsCore]
    split
    · exact List.mem_cons_self _ _
    · exact mem_toDigitsCore _ _ _ _ (List.mem_cons_self _ _)
  rw [h] at hm
  simp at hm

theorem oneLine_iff (s : String) : oneLine s = true ↔ '\n' ∉ s.data := by
  simp [oneLine]

theorem textLines_unlines (ls : List String) (h : ∀ l ∈ ls, oneLine l = true) :
    textLines (unlines ls) = ls ++ [""] := by
  induction ls with
  | nil => rfl
  | cons a ls ih =>
    have ha := (oneLine_iff a).1 (h a (List.mem_cons_self _ _))
    have ih1 := ih (fun l hl => h l (List.mem_cons_of_mem _ hl))
    simp only [textLines, unlines, String.data_join, List.map_cons, List.map_map,
      List.flatten_cons, String.data_append] at ih1 ⊢
    have hsplit := List.splitOnP_first (fun x => x == '\n') a.data
      (fun x hx => by
        intro hxe
        have : x = '\n' := by simpa using hxe
        exact ha (this ▸ hx)) '\n' (by simp)
      (List.map (String.data ∘ fun l => l ++ "\n") ls).flatten
    rw [List.append_assoc, List.singleton_append, List.splitOn, hsplit]
    simp only [List.map_cons, List.cons_append]
    rw [List.splitOn] at ih1
    rw [ih1]

theorem exportNames_unlines (ls : List String) (h : ∀ l ∈ ls, oneLine l = true) :
    exportNames (unlines ls) = ls.filterMap exportName? := by
  rw [exportNames, textLines_unlines ls h, List.filterMap_append]
  simp [exportName?]

theorem exportName?_export (n : String) : exportName? ("//export " ++ n) = some n := by
  simp [exportName?, String.data_append]

theorem newGoGen_Printf (pkg : Package) (s : String) :
    (newGoGen pkg).Printf s = { printer := { buf := s, indent := 0 }, pkg := pkg, err := [] } := by
  simp [newGoGen, goGen.Printf, printer.Printf]

theorem blockOf_eq (env : Env) (pkg : Package) (o : Object) :
    blockOf env pkg o = unlines (declLines env pkg o) := by
  cases o with
  | Const n => rfl
  | Var n => rfl
  | Other n => rfl
  | Func n sig => simp [blockOf, declLines, genFunc_eq, newGoGen_Printf]; rfl
  | TypeName n decl =>
    cases decl with
    | Interface => rfl
    | Other u => rfl
    | Struct fields => simp [blockOf, declLines, genStruct_eq, newGoGen_Printf]; rfl

theorem join_blockOf (env : Env) (pkg : Package) (l : List Object) :
    String.join (l.map (blockOf env pkg)) = unlines (l.flatMap (declLines env pkg)) := by
  rw [← join_map_unlines]
  congr 1
  apply List.map_congr_left
  intro o _
  exact blockOf_eq env pkg o

theorem oneLine_append (a b : String) : oneLine (a ++ b) = (oneLine a && oneLine b) := by
  simp [oneLine, String.data_append, List.contains_eq_any_beq, Bool.not_or]

theorem oneLine_fmtD (n : Nat) : oneLine (fmtD n) = true := by
  rw [oneLine_iff]
  intro h
  have := fmtD_isDigit n _ h
  exact absurd this (by decide)

theorem oneLine_of_plain (s : String) (h : plain s = true) : oneLine s = true := by
  rw [oneLine_iff]
  intro hm
  simp only [plain, List.all_eq_true] at h
  have := h _ hm
  simp at this

theorem exportName?_of_head (l : String) (h : ∀ c, l.data.head? = some c → c ≠ '/') :
    exportName? l = none := by
  unfold exportName?
  cases hl : l.data with
  | nil => rfl
  | cons c cs =>
    have hc := h c (by rw [hl]; rfl)
    have : ("//export ".data.isPrefixOf (c :: cs)) = false := by
      show (('/' :: "/export ".data).isPrefixOf (c :: cs)) = false
      rw [List.isPrefixOf_cons₂]
      have : ('/' == c) = false := by
        simp only [beq_eq_false_iff_ne]
        exact fun h => hc h.symm
      simp [this]
    simp [this]

theorem exportName?_plain_append (c rest : String) (h : plain c = true)
    (hr : ∀ x, rest.data.head? = some x → x ≠ '/') :
    exportName? (c ++ rest) = none := by
  apply exportName?_of_head
  intro x hx
  rw [String.data_append] at hx
  cases hc : c.data with
  | nil =>
    rw [hc] at hx
    exact hr x (by simpa using hx)
  | cons y ys =>
    rw [hc] at hx
    simp at hx
    subst hx
    simp only [plain, List.all_eq_true] at h
    have := h y (by rw [hc]; exact List.mem_cons_self _ _)
    simp at this
    exact this.2

theorem filterMap_flatMap {α β γ : Type} (f : α → List β) (g : β → Option γ) (l : List α) :
    (l.flatMap f).filterMap g = l.flatMap (fun a => (f a).filterMap g) := by
  induction l with
  | nil => rfl
  | cons a l ih => simp [List.flatMap_cons, List.filterMap_append, ih]

theorem exportName?_GoPy (r : String) :
    exportName? ("//export GoPy_" ++ r) = some ("GoPy_" ++ r) := by
  simp only [exportName?, String.data_append]
  simp
  apply String.ext
  simp [String.data_append]

theorem exportName?_type (r : String) : exportName? ("type GoPy_" ++ r) = none := by
  simp [exportName?, String.data_append]

theorem exportName?_func (r : String) : exportName? ("func GoPy_" ++ r) = none := by
  simp [exportName?, String.data_append]

theorem exportName?_ret (r : String) : exportName? ("ret := (*" ++ r) = none := by
  simp [exportName?, String.data_append]

theorem exportName?_return (r : String) : exportName? ("return " ++ r) = none := by
  simp [exportName?, String.data_append]

theorem exportName?_returnRet (r : String) : exportName? ("return ret." ++ r) = none := by
  simp [exportName?, String.data_append]

theorem exportName?_returnCtor (r : String) : exportName? ("return (GoPy_" ++ r) = none := by
  simp [exportName?, String.data_append]

theorem exportName?_comment (r : String) : exportName? ("// GoPy_" ++ r) = none := by
  simp [exportName?, String.data_append]

theorem exportName?_empty : exportName? "" = none := by
  simp [exportName?]

theorem exportName?_close : exportName? "\x7d" = none := by
  simp [exportName?]

theorem fieldLines_exports (env : Env) (pkgname name : String) (i : Nat) (f : Var)
    (hc : f.Exported env = true → env.needWrapType f.type = true → plain (env.cgotype f.type) = true) :
    (fieldLines env pkgname name i f).filterMap exportName? = fieldExports env name i f := by
  unfold fieldLines fieldExports
  cases he : f.Exported env with
  | false => simp
  | true =>
    cases hw : env.needWrapType f.type with
    | false =>
      simp [String.append_assoc, exportName?_GoPy, exportName?_type, exportName?_func,
        exportName?_ret, exportName?_returnRet, exportName?_empty, exportName?_close]
    | true =>
      have h1 := exportName?_plain_append (env.cgotype f.type)
        ("(unsafe.Pointer(&ret." ++ f.name ++ "))") (hc he hw)
        (by intro x hx; simp [String.data_append] at hx; subst hx; decide)
      simp only [String.append_assoc] at h1
      simp [String.append_assoc, exportName?_GoPy, exportName?_type, exportName?_func,
        exportName?_ret, exportName?_returnRet, exportName?_empty, exportName?_close, h1]

theorem fieldLines_oneLine (env : Env) (pkgname name : String) (i : Nat) (f : Var)
    (hp : oneLine pkgname = true) (hn : oneLine name = true)
    (hf : f.Exported env = true → oneLine f.name = true ∧
      (if env.needWrapType f.type then plain (env.cgotype f.type)
       else oneLine (qualifiedType f.type)) = true) :
    ∀ l ∈ fieldLines env pkgname name i f, oneLine l = true := by
  unfold fieldLines
  cases he : f.Exported env with
  | false => simp
  | true =>
    have hf1 := hf he
    have hd := oneLine_fmtD (i + 1)
    cases hw : env.needWrapType f.type with
    | false =>
      simp only [hw, if_false, Bool.false_eq_true] at hf1
      intro l hl
      simp at hl
      rcases hl with h | h | h | h | h | h <;> subst h <;>
        simp +decide [oneLine_append, hp, hn, hd, hf1.1, hf1.2]
    | true =>
      simp only [hw, if_true] at hf1
      have hcg := oneLine_of_plain _ hf1.2
      intro l hl
      simp at hl
      rcases hl with h | h | h | h | h | h | h | h | h <;> subst h <;>
        simp +decide [oneLine_append, hp, hn, hd, hf1.1, hcg]

theorem structClean_iff (env : Env) (pkgname name : String) (fields : List Var) :
    structClean env pkgname name fields = true ↔
      oneLine pkgname = true ∧ oneLine name = true ∧
      ∀ f ∈ fields, f.Exported env = true → oneLine f.name = true ∧
        (if env.needWrapType f.type then plain (env.cgotype f.type)
         else oneLine (qualifiedType f.type)) = true := by
  simp only [structClean, Bool.and_eq_true, List.all_eq_true, Bool.or_eq_true,
    Bool.not_eq_true', and_assoc]
  constructor
  · rintro ⟨hp, hn, hf⟩
    refine ⟨hp, hn, fun f hfm he => ?_⟩
    rcases hf f hfm with h | h
    · rw [he] at h; exact absurd h (by decide)
    · exact h
  · rintro ⟨hp, hn, hf⟩
    refine ⟨hp, hn, fun f hfm => ?_⟩
    cases he : f.Exported env with
    | false => exact Or.inl rfl
    | true => exact Or.inr (hf f hfm he)

theorem structLines_oneLine (env : Env) (pkgname name : String) (fields : List Var)
    (h : structClean env pkgname name fields = true) :
    ∀ l ∈ structLines env pkgname name fields, oneLine l = true := by
  obtain ⟨hp, hn, hf⟩ := (structClean_iff _ _ _ _).1 h
  intro l hl
  simp only [structLines, ctorLines, List.mem_append, List.mem_flatMap] at hl
  rcases hl with (hl | ⟨p, hp1, hp2⟩) | hl
  · simp at hl
    rcases hl with h | h | h <;> subst h <;> simp +decide [oneLine_append, hn]
  · exact fieldLines_oneLine env pkgname name p.1 p.2 hp hn
      (hf p.2 (List.snd_mem_of_mem_enum hp1)) l hp2
  · simp at hl
    rcases hl with h | h | h | h | h <;> subst h <;> simp +decide [oneLine_append, hn, hp]

theorem structLines_exports (env : Env) (pkgname name : String) (fields : List Var)
    (h : structClean env pkgname name fields = true) :
    (structLines env pkgname name fields).filterMap exportName? =
      structExports env name fields := by
  obtain ⟨hp, hn, hf⟩ := (structClean_iff _ _ _ _).1 h
  simp only [structLines, ctorLines, structExports, List.filterMap_append, filterMap_flatMap]
  have hmid : fields.enum.flatMap
        (fun p => (fieldLines env pkgname name p.1 p.2).filterMap exportName?) =
      fields.enum.flatMap (fun p => fieldExports env name p.1 p.2) := by
    apply List.flatMap_congr
    intro p hpm
    apply fieldLines_exports
    intro he hw
    have := (hf p.2 (List.snd_mem_of_mem_enum hpm) he).2
    simpa [hw] using this
  rw [hmid]
  simp [String.append_assoc, exportName?_GoPy, exportName?_type, exportName?_func,
    exportName?_returnCtor, exportName?_empty, exportName?_close]

theorem exportNames_struct (env : Env) (pkg : Package) (name : String) (fields : List Var)
    (h : structClean env pkg.pkg.name name fields = true) :
    exportNames (blockOf env pkg (.TypeName name (.Struct fields))) =
      structExports env name fields := by
  rw [blockOf_eq, declLines, exportNames_unlines _ (structLines_oneLine _ _ _ _ h),
    structLines_exports _ _ _ _ h]

theorem getterName_injective (name : String) (a b : Nat)
    (h : "GoPy_" ++ name ++ "_getter_" ++ fmtD a = "GoPy_" ++ name ++ "_getter_" ++ fmtD b) :
    a = b := by
  apply fmtD_injective
  apply String.ext
  have := congrArg String.data h
  simpa [String.data_append] using this

theorem fieldName_injective (name : String) (a b : Nat)
    (h : "GoPy_" ++ name ++ "_field_" ++ fmtD a = "GoPy_" ++ name ++ "_field_" ++ fmtD b) :
    a = b := by
  apply fmtD_injective
  apply String.ext
  have := congrArg String.data h
  simpa [String.data_append] using this

theorem isGetterOf_handle (name : String) : isGetterOf name ("GoPy_" ++ name) = false := by
  rw [Bool.eq_false_iff]
  simp only [isGetterOf, String.data_append, List.isPrefixOf_iff_prefix, ne_eq]
  intro h
  have := h.length_le
  simp at this

theorem isGetterOf_new (name : String) : isGetterOf name ("GoPy_" ++ name ++ "_new") = false := by
  rw [Bool.eq_false_iff]
  simp [isGetterOf, String.data_append]

theorem isGetterOf_field (name : String) (k : Nat) :
    isGetterOf name ("GoPy_" ++ name ++ "_field_" ++ fmtD k) = false := by
  rw [Bool.eq_false_iff]
  simp [isGetterOf, String.data_append]

theorem isGetterOf_getter (name : String) (k : Nat) :
    isGetterOf name ("GoPy_" ++ name ++ "_getter_" ++ fmtD k) = true := by
  simp [isGetterOf, String.data_append]

theorem fieldExports_filter (env : Env) (name : String) (i : Nat) (f : Var) :
    (fieldExports env name i f).filter (isGetterOf name) =
      if f.Exported env then ["GoPy_" ++ name ++ "_getter_" ++ fmtD (i + 1)] else [] := by
  unfold fieldExports
  cases he : f.Exported env <;> cases hw : env.needWrapType f.type <;>
    simp [isGetterOf_field, isGetterOf_getter]

theorem flatMap_fieldExports_filter (env : Env) (name : String) (ps : List (Nat × Var)) :
    (ps.flatMap (fun p => fieldExports env name p.1 p.2)).filter (isGetterOf name) =
      ((ps.filter (fun p => p.2.Exported env)).map (fun p => p.1 + 1)).map
        (fun k => "GoPy_" ++ name ++ "_getter_" ++ fmtD k) := by
  induction ps with
  | nil => rfl
  | cons p ps ih =>
    rw [List.flatMap_cons, List.filter_append, ih, fieldExports_filter]
    cases he : p.2.Exported env <;> simp [List.filter_cons, he]

theorem structExports_filter (env : Env) (name : String) (fields : List Var) :
    (structExports env name fields).filter (isGetterOf name) =
      (exportedPositions env fields).map (fun k => "GoPy_" ++ name ++ "_getter_" ++ fmtD k) := by
  unfold structExports exportedPositions
  rw [List.filter_append, List.filter_append, flatMap_fieldExports_filter]
  simp [List.filter_cons, isGetterOf_handle, isGetterOf_new]

theorem exportedPositions_pairwise (env : Env) (fields : List Var) :
    List.Pairwise (fun a b => a < b) (exportedPositions env fields) := by
  unfold exportedPositions
  rw [List.pairwise_map]
  apply List.Pairwise.filter
  have h := List.pairwise_lt_range fields.length
  rw [← List.enum_map_fst fields, List.pairwise_map] at h
  exact h.imp (fun hab => Nat.succ_lt_succ hab)

theorem mem_exportedPositions (env : Env) (fields : List Var) (k : Nat) :
    k ∈ exportedPositions env fields ↔
      1 ≤ k ∧ ∃ f, fields[k - 1]? = some f ∧ f.Exported env = true := by
  unfold exportedPositions
  simp only [List.mem_map, List.mem_filter, List.mem_enum_iff_getElem?]
  constructor
  · rintro ⟨p, ⟨hp, he⟩, rfl⟩
    exact ⟨Nat.succ_pos _, p.2, by simpa using hp, he⟩
  · rintro ⟨hk, f, hf, he⟩
    refine ⟨(k - 1, f), ⟨hf, he⟩, ?_⟩
    simp
    omega

theorem append_singleton_ne {α : Type} (a b : List α) (x y : α) (hxy : x ≠ y) :
    a ++ [x] ≠ b ++ [y] := by
  intro h
  have := congrArg List.getLast? h
  simp at this
  exact hxy this

theorem append_pair_ne {α : Type} (a b : List α) (w x y z : α) (hxz : x ≠ z) :
    a ++ [w, x] ≠ b ++ [y, z] := by
  intro h
  have := congrArg List.getLast? h
  simp at this
  exact hxz this

theorem new_not_mem_fieldExports (env : Env) (name : String) (i : Nat) (f : Var) :
    "GoPy_" ++ name ++ "_new" ∉ fieldExports env name i f := by
  unfold fieldExports
  cases he : f.Exported env <;> cases hw : env.needWrapType f.type <;>
    simp [String.ext_iff, String.data_append]

theorem count_new_structExports (env : Env) (name : String) (fields : List Var) :
    (structExports env name fields).count ("GoPy_" ++ name ++ "_new") = 1 := by
  unfold structExports
  have hmid : (fields.enum.flatMap (fun p => fieldExports env name p.1 p.2)).count
      ("GoPy_" ++ name ++ "_new") = 0 := by
    rw [List.count_eq_zero]
    intro hm
    obtain ⟨p, _, hp⟩ := List.mem_flatMap.1 hm
    exact new_not_mem_fieldExports env name p.1 p.2 hp
  have hbase : "GoPy_" ++ name ≠ "GoPy_" ++ name ++ "_new" := by
    simp [String.ext_iff, String.data_append]
  rw [List.count_append, List.count_append, hmid]
  simp [List.count_cons, hbase]

theorem ctorDecl_not_mem_fieldLines (env : Env) (pkgname name : String) (i : Nat) (f : Var) :
    "func GoPy_" ++ name ++ "_new() GoPy_" ++ name ++ " \x7b" ∉
      fieldLines env pkgname name i f := by
  unfold fieldLines
  have hcg : ¬ ("func GoPy_" ++ name ++ "_new() GoPy_" ++ name ++ " \x7b" =
      env.cgotype f.type ++ "(unsafe.Pointer(&ret." ++ f.name ++ "))") := by
    intro h
    have hd := congrArg String.data h
    simp only [String.data_append] at hd
    exact append_pair_ne _ _ _ _ _ _ (by decide) hd
  cases he : f.Exported env <;> cases hw : env.needWrapType f.type <;>
    simp [String.ext_iff, String.data_append]
  simpa [String.ext_iff, String.data_append] using hcg

theorem count_ctorDecl_structLines (env : Env) (pkgname name : String) (fields : List Var) :
    (structLines env pkgname name fields ++ [""]).count
      ("func GoPy_" ++ name ++ "_new() GoPy_" ++ name ++ " \x7b") = 1 := by
  unfold structLines
  have hmid : (fields.enum.flatMap (fun p => fieldLines env pkgname name p.1 p.2)).count
      ("func GoPy_" ++ name ++ "_new() GoPy_" ++ name ++ " \x7b") = 0 := by
    rw [List.count_eq_zero]
    intro hm
    obtain ⟨p, _, hp⟩ := List.mem_flatMap.1 hm
    exact ctorDecl_not_mem_fieldLines env pkgname name p.1 p.2 hp
  rw [List.count_append, List.count_append, List.count_append, hmid]
  simp [List.count_cons, ctorLines, String.ext_iff, String.data_append]

theorem goPreamble_eq (n q : String) : goPreamble n q = unlines (preambleLines n q) := by
  apply String.ext
  simp [goPreamble, preambleLines, unlines, String.data_append]

theorem trailer_eq (q : String) : trailer q = unlines (trailerLines q) := by
  apply String.ext
  simp [trailer, trailerLines, unlines, String.data_append]

theorem preambleLines_oneLine (n q : String) (hn : oneLine n = true) (hq : oneLine q = true) :
    ∀ l ∈ preambleLines n q, oneLine l = true := by
  intro l hl
  simp only [preambleLines, List.mem_cons, List.mem_singleton, List.not_mem_nil, or_false] at hl
  rcases hl with h | h | h | h | h | h | h | h | h | h | h | h | h | h | h | h | h | h | h | h |
    h | h | h | h | h | h | h | h | h | h | h | h <;> subst h <;>
    simp +decide [oneLine_append, hn, hq]

theorem trailerLines_oneLine (q : String) (hq : oneLine q = true) :
    ∀ l ∈ trailerLines q, oneLine l = true := by
  intro l hl
  simp only [trailerLines, List.mem_cons, List.mem_singleton, List.not_mem_nil, or_false] at hl
  rcases hl with h | h | h | h | h | h | h | h <;> subst h <;>
    simp +decide [oneLine_append, hq]

theorem preambleLines_exports (n q : String) :
    (preambleLines n q).filterMap exportName? = ["CGoPy_GoString", "CGoPy_CString"] := by
  simp [preambleLines, exportName?, String.data_append]

theorem trailerLines_exports (q : String) :
    (trailerLines q).filterMap exportName? = [] := by
  simp [trailerLines, exportName?, String.data_append]

theorem oneLine_join (l : List String) (h : ∀ x ∈ l, oneLine x = true) :
    oneLine (String.join l) = true := by
  rw [oneLine_iff, String.data_join]
  intro hm
  obtain ⟨d, hd, hmem⟩ := List.mem_flatten.1 hm
  obtain ⟨x, hx, rfl⟩ := List.mem_map.1 hd
  exact (oneLine_iff x).1 (h x hx) hmem

theorem oneLine_intercalate (s : String) (l : List String) (hs : oneLine s = true)
    (h : ∀ x ∈ l, oneLine x = true) : oneLine (s.intercalate l) = true := by
  cases l with
  | nil => rfl
  | cons a l =>
    rw [intercalate_cons, oneLine_append, h a (List.mem_cons_self _ _), Bool.true_and]
    apply oneLine_join
    intro x hx
    obtain ⟨y, hy, rfl⟩ := List.mem_map.1 hx
    rw [oneLine_append, hs, h y (List.mem_cons_of_mem _ hy)]
    rfl

theorem oneLine_localName (i : Nat) : oneLine (localName i) = true := by
  have hd : oneLine (toString i) = true := oneLine_fmtD i
  unfold localName fmt03d
  split
  · simp +decide [oneLine_append, hd]
  · split <;> simp +decide [oneLine_append, hd]

theorem funcClean_iff (env : Env) (name : String) (sig : Signature) :
    funcClean env name sig = true ↔
      oneLine name = true ∧
      (∀ v ∈ sig.params, oneLine v.name = true ∧ oneLine (qualifiedType v.type) = true) ∧
      (∀ v ∈ sig.results, oneLine v.name = true ∧ oneLine (qualifiedType v.type) = true ∧
        oneLine (env.resCgotype v) = true ∧ oneLine (env.resGoSyntax v) = true ∧
        oneLine (env.typeString v.type.Underlying) = true) := by
  simp only [funcClean, Bool.and_eq_true, List.all_eq_true, and_assoc]

theorem oneLine_tupleString (tuple : List Var)
    (h : ∀ v ∈ tuple, oneLine v.name = true ∧ oneLine (qualifiedType v.type) = true) :
    oneLine (tupleString tuple) = true := by
  rw [tupleString_eq]
  apply oneLine_intercalate _ _ (by decide)
  intro x hx
  obtain ⟨v, hv, rfl⟩ := List.mem_map.1 hx
  simp +decide [oneLine_append, (h v hv).1, (h v hv).2]

theorem oneLine_genFuncRet (sig : Signature)
    (h : ∀ v ∈ sig.results, oneLine v.name = true ∧ oneLine (qualifiedType v.type) = true) :
    oneLine (genFuncRet sig) = true := by
  have ht := oneLine_tupleString sig.results h
  unfold genFuncRet
  split <;> simp +decide [oneLine_append, ht]

theorem oneLine_callLine (pkgName name : String) (sig : Signature)
    (hp : oneLine pkgName = true) (hn : oneLine name = true)
    (h : ∀ v ∈ sig.params, oneLine v.name = true) :
    oneLine (callLine pkgName name sig) = true := by
  have h1 : oneLine (", ".intercalate ((List.range sig.results.length).map localName)) = true := by
    apply oneLine_intercalate _ _ (by decide)
    intro x hx
    obtain ⟨i, _, rfl⟩ := List.mem_map.1 hx
    exact oneLine_localName i
  have h2 : oneLine (", ".intercalate (sig.params.map Var.name)) = true := by
    apply oneLine_intercalate _ _ (by decide)
    intro x hx
    obtain ⟨v, hv, rfl⟩ := List.mem_map.1 hx
    exact h v hv
  unfold callLine
  split <;> simp +decide [oneLine_append, h1, h2, hp, hn]

theorem oneLine_returnLine (env : Env) (sig : Signature)
    (h : ∀ v ∈ sig.results, oneLine (env.resCgotype v) = true ∧
      oneLine (env.resGoSyntax v) = true ∧
      oneLine (env.typeString v.type.Underlying) = true) :
    oneLine (returnLine env sig) = true := by
  unfold returnLine
  rw [oneLine_append]
  have : oneLine (", ".intercalate (sig.results.enum.map (fun p => returnExpr env p.1 p.2))) =
      true := by
    apply oneLine_intercalate _ _ (by decide)
    intro x hx
    obtain ⟨p, hp, rfl⟩ := List.mem_map.1 hx
    have hv := h p.2 (List.snd_mem_of_mem_enum hp)
    unfold returnExpr
    cases hw : env.resNeedWrap p.2 <;>
      simp +decide [oneLine_append, oneLine_localName, hv.1, hv.2.1, hv.2.2]
  rw [this]
  rfl

theorem funcLines_oneLine (env : Env) (pkg : Package) (name : String) (sig : Signature)
    (hp : plain pkg.pkg.name = true) (hpath : oneLine pkg.pkg.path = true)
    (h : funcClean env name sig = true) :
    ∀ l ∈ funcLines env pkg name sig, oneLine l = true := by
  obtain ⟨hn, hpar, hres⟩ := (funcClean_iff _ _ _).1 h
  have hpn : oneLine pkg.Name = true := oneLine_of_plain _ hp
  have hfull : oneLine (FullName pkg.pkg name) = true := by
    unfold FullName
    split
    · exact hn
    · simp +decide [oneLine_append, hn, hpath]
  have h4 := oneLine_tupleString sig.params hpar
  rw [tupleString_eq] at h4
  have h5 := oneLine_genFuncRet sig (fun v hv => ⟨(hres v hv).1, (hres v hv).2.1⟩)
  have h6 := oneLine_callLine pkg.Name name sig hpn hn (fun v hv => (hpar v hv).1)
  have h7 := oneLine_returnLine env sig (fun v hv => (hres v hv).2.2)
  intro l hl
  unfold funcLines at hl
  split at hl
  · simp at hl
    rcases hl with h | h | h | h | h | h | h <;> subst h <;>
      simp +decide [oneLine_append, hn, hfull, h4, h5, h6]
  · simp at hl
    rcases hl with h | h | h | h | h | h | h | h <;> subst h <;>
      simp +decide [oneLine_append, hn, hfull, h4, h5, h6, h7]

theorem exportName?_callLine (pkgName name : String) (sig : Signature)
    (hp : plain pkgName = true) : exportName? (callLine pkgName name sig) = none := by
  unfold callLine
  cases hr : sig.results with
  | nil =>
    have h := exportName?_plain_append pkgName
      ("." ++ name ++ "(" ++ ", ".intercalate (sig.params.map Var.name) ++ ")") hp
      (by intro x hx; simp [String.data_append] at hx; subst hx; decide)
    have he : ", ".intercalate ((List.range ([] : List Var).length).map localName) ++
        (if ([] : List Var).length > 0 then " := " else "") ++ pkgName ++ "." ++ name ++ "(" ++
        ", ".intercalate (sig.params.map Var.name) ++ ")" =
        pkgName ++ ("." ++ name ++ "(" ++ ", ".intercalate (sig.params.map Var.name) ++ ")") := by
      apply String.ext
      simp [String.data_append, String.intercalate]
    rw [he]
    exact h
  | cons r rs =>
    apply exportName?_of_head
    intro c hc
    rw [List.length_cons, List.range_succ_eq_map, List.map_cons, intercalate_cons] at hc
    simp [String.data_append, localName] at hc
    subst hc
    decide

theorem funcLines_exports (env : Env) (pkg : Package) (name : String) (sig : Signature)
    (hp : plain pkg.pkg.name = true) :
    (funcLines env pkg name sig).filterMap exportName? = ["GoPy_" ++ name] := by
  have hc := exportName?_callLine pkg.Name name sig hp
  have hr : exportName? (returnLine env sig) = none := exportName?_return _
  unfold funcLines
  split <;>
    simp [String.append_assoc, exportName?_GoPy, exportName?_func, exportName?_comment,
      exportName?_empty, exportName?_close, hc, hr]

theorem pkgClean_iff (env : Env) (pkg : Package) :
    pkgClean env pkg = true ↔
      plain pkg.pkg.name = true ∧ oneLine pkg.pkg.path = true ∧
      oneLine (env.quote pkg.pkg.path) = true ∧ oneLine (env.quote pkg.Name) = true ∧
      ∀ o ∈ pkg.pkg.scope, o.Exported env = true →
        (match o with
          | .Func name sig => funcClean env name sig
          | .TypeName name (.Struct fields) => structClean env pkg.pkg.name name fields
          | _ => true) = true := by
  simp only [pkgClean, Bool.and_eq_true, List.all_eq_true, Bool.or_eq_true,
    Bool.not_eq_true', and_assoc]
  constructor
  · rintro ⟨h1, h2, h3, h4, h5⟩
    refine ⟨h1, h2, h3, h4, fun o ho he => ?_⟩
    rcases h5 o ho with h | h
    · rw [he] at h; exact absurd h (by decide)
    · exact h
  · rintro ⟨h1, h2, h3, h4, h5⟩
    refine ⟨h1, h2, h3, h4, fun o ho => ?_⟩
    cases he : o.Exported env with
    | false => exact Or.inl rfl
    | true => exact Or.inr (h5 o ho he)

theorem declLines_oneLine (env : Env) (pkg : Package) (o : Object)
    (hp : plain pkg.pkg.name = true) (hpath : oneLine pkg.pkg.path = true)
    (hc : (match o with
          | .Func name sig => funcClean env name sig
          | .TypeName name (.Struct fields) => structClean env pkg.pkg.name name fields
          | _ => true) = true) :
    ∀ l ∈ declLines env pkg o, oneLine l = true := by
  cases o with
  | Const n => simp [declLines]
  | Var n => simp [declLines]
  | Other n => simp [declLines]
  | Func n sig => exact funcLines_oneLine env pkg n sig hp hpath hc
  | TypeName n decl =>
    cases decl with
    | Interface => simp [declLines]
    | Other u => simp [declLines]
    | Struct fields => exact structLines_oneLine env pkg.pkg.name n fields hc

theorem declLines_exports (env : Env) (pkg : Package) (o : Object)
    (hp : plain pkg.pkg.name = true)
    (hc : (match o with
          | .Func name sig => funcClean env name sig
          | .TypeName name (.Struct fields) => structClean env pkg.pkg.name name fields
          | _ => true) = true) :
    (declLines env pkg o).filterMap exportName? = declExports env o := by
  cases o with
  | Const n => rfl
  | Var n => rfl
  | Other n => rfl
  | Func n sig => exact funcLines_exports env pkg n sig hp
  | TypeName n decl =>
    cases decl with
    | Interface => rfl
    | Other u => rfl
    | Struct fields => exact structLines_exports env pkg.pkg.name n fields hc

theorem exportNames_gen (env : Env) (pkg : Package)
    (hsup : ∀ o ∈ pkg.pkg.scope, o.Exported env = true → supported o = true)
    (hclean : pkgClean env pkg = true) :
    exportNames (gen env (newGoGen pkg)).text =
      ["CGoPy_GoString", "CGoPy_CString"] ++
        (pkg.pkg.scope.filter (Object.Exported env)).flatMap (declExports env) := by
  obtain ⟨hp, hpath, hq1, hq2, hobj⟩ := (pkgClean_iff env pkg).1 hclean
  have hmem : ∀ o ∈ pkg.pkg.scope.filter (Object.Exported env),
      o ∈ pkg.pkg.scope ∧ o.Exported env = true := fun o ho => List.mem_filter.1 ho
  rw [gen_returned env (newGoGen pkg) hsup, newGoGen_Printf]
  simp only [GenEnd.text, GenEnd.state, newGoGen]
  rw [goPreamble_eq, trailer_eq, ← unlines_append, ← unlines_append, exportNames_unlines,
    List.filterMap_append, List.filterMap_append, preambleLines_exports, trailerLines_exports,
    filterMap_flatMap, List.append_nil]
  · congr 1
    apply List.flatMap_congr
    intro o ho
    exact declLines_exports env pkg o hp (hobj o (hmem o ho).1 (hmem o ho).2)
  · intro l hl
    rcases List.mem_append.1 hl with hl | hl
    · rcases List.mem_append.1 hl with hl | hl
      · exact preambleLines_oneLine _ _ (oneLine_of_plain _ hp) hq1 l hl
      · obtain ⟨o, ho, hlo⟩ := List.mem_flatMap.1 hl
        exact declLines_oneLine env pkg o hp hpath (hobj o (hmem o ho).1 (hmem o ho).2) l hlo
    · exact trailerLines_oneLine _ hq2 l hl

theorem first_sep_unique {α : Type} (c : α) (u v p q : List α) (hu : c ∉ u) (hv : c ∉ v)
    (h : u ++ c :: p = v ++ c :: q) : u = v ∧ p = q := by
  induction u generalizing v with
  | nil =>
    cases v with
    | nil => simpa using h
    | cons d v =>
      simp at h
      exact absurd h.1 (fun hcd => hv (hcd ▸ List.mem_cons_self _ _))
  | cons e u ih =>
    cases v with
    | nil =>
      simp at h
      exact absurd h.1 (fun hec => hu (hec ▸ List.mem_cons_self _ _))
    | cons d v =>
      simp only [List.cons_append, List.cons.injEq] at h
      obtain ⟨h1, h2⟩ := ih v (fun hm => hu (List.mem_cons_of_mem _ hm))
        (fun hm => hv (List.mem_cons_of_mem _ hm)) h.2
      exact ⟨by rw [h.1, h1], h2⟩

theorem last_sep_unique {α : Type} (c : α) (a b x y : List α) (hx : c ∉ x) (hy : c ∉ y)
    (h : a ++ c :: x = b ++ c :: y) : a = b ∧ x = y := by
  have hr := congrArg List.reverse h
  simp only [List.reverse_append, List.reverse_cons, List.append_assoc, List.singleton_append]
    at hr
  obtain ⟨h1, h2⟩ := first_sep_unique c x.reverse y.reverse a.reverse b.reverse
    (by simpa using hx) (by simpa using hy) hr
  exact ⟨List.reverse_injective h2, List.reverse_injective h1⟩

theorem underscore_not_mem_of_digits (t : List Char) (h : ∀ c ∈ t, c.isDigit = true) :
    '_' ∉ t := by
  intro hm
  exact absurd (h _ hm) (by decide)

theorem derived_split (s x : String) (h : IsDerived s x) :
    ∃ w t, x.data = "GoPy_".data ++ (w ++ '_' :: t) ∧ '_' ∉ t ∧
      ((w = s.data ∧ t = "new".data) ∨
       (w = s.data ++ "_field".data ∧ ∀ c ∈ t, c.isDigit = true) ∨
       (w = s.data ++ "_getter".data ∧ ∀ c ∈ t, c.isDigit = true)) := by
  rcases h with h | ⟨k, h | h⟩
  · refine ⟨s.data, "new".data, ?_, by decide, Or.inl ⟨rfl, rfl⟩⟩
    rw [h]
    simp [String.data_append]
  · refine ⟨s.data ++ "_field".data, (fmtD k).data, ?_,
      underscore_not_mem_of_digits _ (fmtD_isDigit k), Or.inr (Or.inl ⟨rfl, fmtD_isDigit k⟩)⟩
    rw [h]
    simp [String.data_append]
  · refine ⟨s.data ++ "_getter".data, (fmtD k).data, ?_,
      underscore_not_mem_of_digits _ (fmtD_isDigit k), Or.inr (Or.inr ⟨rfl, fmtD_isDigit k⟩)⟩
    rw [h]
    simp [String.data_append]

theorem derived_same_struct (s t x : String) (hs : IsDerived s x) (ht : IsDerived t x) :
    s = t := by
  obtain ⟨w1, t1, hx1, hu1, hc1⟩ := derived_split s x hs
  obtain ⟨w2, t2, hx2, hu2, hc2⟩ := derived_split t x ht
  rw [hx1] at hx2
  have hwt := last_sep_unique '_' w1 w2 t1 t2 hu1 hu2 (List.append_cancel_left hx2)
  obtain ⟨hw, htt⟩ := hwt
  have hnew : ∀ t : List Char, (∀ c ∈ t, c.isDigit = true) → t ≠ "new".data := by
    intro t hd he
    have := hd 'n' (by rw [he]; decide)
    exact absurd this (by decide)
  have hfg : ∀ a b : List Char, a ++ "_field".data ≠ b ++ "_getter".data := by
    intro a b he
    have := last_sep_unique '_' a b "field".data "getter".data (by decide) (by decide) he
    exact absurd this.2 (by decide)
  apply String.ext
  rcases hc1 with ⟨h1, e1⟩ | ⟨h1, e1⟩ | ⟨h1, e1⟩ <;>
    rcases hc2 with ⟨h2, e2⟩ | ⟨h2, e2⟩ | ⟨h2, e2⟩
  · rw [← h1, ← h2]; exact hw
  · exact absurd (htt ▸ e1 : t2 = "new".data) (hnew t2 e2)
  · exact absurd (htt ▸ e1 : t2 = "new".data) (hnew t2 e2)
  · exact absurd (htt.symm ▸ e2 : t1 = "new".data) (hnew t1 e1)
  · rw [h1, h2] at hw; exact List.append_cancel_right hw
  · rw [h1, h2] at hw; exact absurd hw (hfg _ _)
  · exact absurd (htt.symm ▸ e2 : t1 = "new".data) (hnew t1 e1)
  · rw [h1, h2] at hw; exact absurd hw.symm (hfg _ _)
  · rw [h1, h2] at hw; exact List.append_cancel_right hw

theorem mem_fieldExports (env : Env) (name : String) (i : Nat) (f : Var) (x : String)
    (h : x ∈ fieldExports env name i f) :
    x = "GoPy_" ++ name ++ "_field_" ++ fmtD (i + 1) ∨
    x = "GoPy_" ++ name ++ "_getter_" ++ fmtD (i + 1) := by
  unfold fieldExports at h
  cases he : f.Exported env <;> cases hw : env.needWrapType f.type <;> simp [he, hw] at h
  · exact Or.inr h
  · exact h

theorem mem_structExports (env : Env) (name : String) (fields : List Var) (x : String)
    (h : x ∈ structExports env name fields) :
    x = "GoPy_" ++ name ∨ IsDerived name x := by
  simp only [structExports, List.mem_append, List.mem_singleton, List.mem_flatMap] at h
  rcases h with (h | ⟨p, _, hp⟩) | h
  · exact Or.inl h
  · rcases mem_fieldExports env name p.1 p.2 x hp with h | h
    · exact Or.inr (Or.inr ⟨p.1 + 1, Or.inl h⟩)
    · exact Or.inr (Or.inr ⟨p.1 + 1, Or.inr h⟩)
  · exact Or.inr (Or.inl h)

theorem fieldExports_nodup (env : Env) (name : String) (i : Nat) (f : Var) :
    (fieldExports env name i f).Nodup := by
  unfold fieldExports
  cases he : f.Exported env <;> cases hw : env.needWrapType f.type <;>
    simp [String.ext_iff, String.data_append]

theorem fieldExports_disjoint (env : Env) (name : String) (i j : Nat) (f g : Var)
    (hij : i < j) : List.Disjoint (fieldExports env name i f) (fieldExports env name j g) := by
  intro x hx hy
  have hne : i + 1 ≠ j + 1 := by omega
  rcases mem_fieldExports env name i f x hx with h1 | h1 <;>
    rcases mem_fieldExports env name j g x hy with h2 | h2
  · exact hne (fieldName_injective name _ _ (h1.symm.trans h2))
  · rw [h1] at h2
    simp [String.ext_iff, String.data_append] at h2
  · rw [h1] at h2
    simp [String.ext_iff, String.data_append] at h2
  · exact hne (getterName_injective name _ _ (h1.symm.trans h2))

theorem structExports_nodup (env : Env) (name : String) (fields : List Var) :
    (structExports env name fields).Nodup := by
  unfold structExports
  have hmid : (fields.enum.flatMap (fun p => fieldExports env name p.1 p.2)).Nodup := by
    rw [List.nodup_flatMap]
    refine ⟨fun p _ => fieldExports_nodup env name p.1 p.2, ?_⟩
    have h := List.pairwise_lt_range fields.length
    rw [← List.enum_map_fst fields, List.pairwise_map] at h
    exact h.imp (fun hab => fieldExports_disjoint env name _ _ _ _ hab)
  have hbase : ∀ x ∈ fields.enum.flatMap (fun p => fieldExports env name p.1 p.2),
      x ≠ "GoPy_" ++ name := by
    intro x hx
    obtain ⟨p, _, hp⟩ := List.mem_flatMap.1 hx
    rcases mem_fieldExports env name p.1 p.2 x hp with h | h <;> rw [h] <;>
      simp [String.ext_iff, String.data_append]
  rw [List.nodup_append, List.nodup_append]
  refine ⟨⟨List.nodup_singleton _, hmid, ?_⟩, List.nodup_singleton _, ?_⟩
  · intro x hx hy
    rw [List.mem_singleton] at hx
    exact hbase x hy hx
  · intro x hx hy
    rw [List.mem_singleton] at hy
    rcases List.mem_append.1 hx with h | h
    · rw [List.mem_singleton] at h
      rw [h] at hy
      simp [String.ext_iff, String.data_append] at hy
    · obtain ⟨p, _, hp⟩ := List.mem_flatMap.1 h
      rw [hy] at hp
      exact new_not_mem_fieldExports env name p.1 p.2 hp

theorem declExports_nodup (env : Env) (o : Object) : (declExports env o).Nodup := by
  cases o with
  | Const n => simp [declExports]
  | Var n => simp [declExports]
  | Other n => simp [declExports]
  | Func n sig => simp [declExports]
  | TypeName n decl =>
    cases decl with
    | Interface => simp [declExports]
    | Other u => simp [declExports]
    | Struct fields => exact structExports_nodup env n fields

theorem mem_declExports (env : Env) (o : Object) (x : String) (h : x ∈ declExports env o) :
    x = "GoPy_" ++ o.Name ∨
      ((∃ fields, o = .TypeName o.Name (.Struct fields)) ∧ IsDerived o.Name x) := by
  cases o with
  | Const n => simp [declExports] at h
  | Var n => simp [declExports] at h
  | Other n => simp [declExports] at h
  | Func n sig => simp [declExports] at h; exact Or.inl h
  | TypeName n decl =>
    cases decl with
    | Interface => simp [declExports] at h
    | Other u => simp [declExports] at h
    | Struct fields =>
      rcases mem_structExports env n fields x h with h | h
      · exact Or.inl h
      · exact Or.inr ⟨⟨fields, rfl⟩, h⟩

theorem name_of_derived (a s : String) (h : IsDerived s ("GoPy_" ++ a)) :
    a = s ++ "_new" ∨ ∃ k, a = s ++ "_field_" ++ fmtD k ∨ a = s ++ "_getter_" ++ fmtD k := by
  rcases h with h | ⟨k, h | h⟩
  · left
    apply String.ext
    have := congrArg String.data h
    simpa [String.data_append] using this
  · right
    refine ⟨k, Or.inl ?_⟩
    apply String.ext
    have := congrArg String.data h
    simpa [String.data_append] using this
  · right
    refine ⟨k, Or.inr ?_⟩
    apply String.ext
    have := congrArg String.data h
    simpa [String.data_append] using this

theorem GoPy_name_injective (a b : String) (h : "GoPy_" ++ a = "GoPy_" ++ b) : a = b := by
  apply String.ext
  have := congrArg String.data h
  simpa [String.data_append] using this

@[simp]
theorem Printf_indent (g : goGen) (a : String) :
    (g.Printf a).printer.indent = g.printer.indent := rfl

theorem genLoop_state (env : Env) (objs : List Object) (g : goGen) :
    ∃ s : String,
      (genLoop env g objs = .done (g.Printf s)) ∨
      (∃ obj, obj ∈ objs ∧ obj.Exported env = true ∧ supported obj = false ∧
        genLoop env g objs = .panic (g.Printf s) obj) := by
  induction objs generalizing g with
  | nil => exact ⟨"", Or.inl (by simp [genLoop, Printf_empty])⟩
  | cons o rest ih =>
    cases he : o.Exported env with
    | false =>
      obtain ⟨s, hs⟩ := ih g
      refine ⟨s, ?_⟩
      rcases hs with hs | ⟨obj, hm, h1, h2, hs⟩
      · left; unfold genLoop; simp [he, hs]
      · right
        refine ⟨obj, List.mem_cons_of_mem _ hm, h1, h2, ?_⟩
        unfold genLoop; simp [he, hs]
    | true =>
      have hstep : ∀ t : String, ∃ s : String,
          (genLoop env (g.Printf t) rest = .done (g.Printf s)) ∨
          (∃ obj, obj ∈ o :: rest ∧ obj.Exported env = true ∧ supported obj = false ∧
            genLoop env (g.Printf t) rest = .panic (g.Printf s) obj) := by
        intro t
        obtain ⟨s, hs⟩ := ih (g.Printf t)
        refine ⟨t ++ s, ?_⟩
        rw [Printf_Printf] at hs
        rcases hs with hs | ⟨obj, hm, h1, h2, hs⟩
        · exact Or.inl hs
        · exact Or.inr ⟨obj, List.mem_cons_of_mem _ hm, h1, h2, hs⟩
      cases o with
      | Const n =>
        exact ⟨"", Or.inr ⟨_, List.mem_cons_self _ _, he, rfl, by
          rw [genLoop]; simp [he, Printf_empty]⟩⟩
      | Var n =>
        exact ⟨"", Or.inr ⟨_, List.mem_cons_self _ _, he, rfl, by
          rw [genLoop]; simp [he, Printf_empty]⟩⟩
      | Other n =>
        exact ⟨"", Or.inr ⟨_, List.mem_cons_self _ _, he, rfl, by
          rw [genLoop]; simp [he, Printf_empty]⟩⟩
      | Func n sig =>
        obtain ⟨s, hs⟩ := hstep (unlines (funcLines env g.pkg n sig))
        refine ⟨s, ?_⟩
        rw [genLoop]
        simpa [he, genFunc_eq] using hs
      | TypeName n decl =>
        cases decl with
        | Interface =>
          exact ⟨"", Or.inr ⟨_, List.mem_cons_self _ _, he, rfl, by
            rw [genLoop]; simp [he, Printf_empty]⟩⟩
        | Other u =>
          exact ⟨"", Or.inr ⟨_, List.mem_cons_self _ _, he, rfl, by
            rw [genLoop]; simp [he, Printf_empty]⟩⟩
        | Struct fields =>
          obtain ⟨s, hs⟩ := hstep (unlines (structLines env g.pkg.pkg.name n fields))
          refine ⟨s, ?_⟩
          rw [genLoop]
          simpa [he, genStruct_eq] using hs

theorem scope_split (env : Env) (objs : List Object) :
    (∀ o ∈ objs, o.Exported env = true → supported o = true) ∨
    ∃ pre o post, objs = pre ++ o :: post ∧
      (∀ p ∈ pre, p.Exported env = true → supported p = true) ∧
      o.Exported env = true ∧ supported o = false := by
  induction objs with
  | nil => exact Or.inl (fun o ho => absurd ho (List.not_mem_nil o))
  | cons a rest ih =>
    by_cases ha : a.Exported env = true → supported a = true
    · rcases ih with h | ⟨pre, o, post, h1, h2, h3, h4⟩
      · left
        intro o ho
        rcases List.mem_cons.1 ho with h0 | h0
        · rw [h0]; exact ha
        · exact h o h0
      · right
        refine ⟨a :: pre, o, post, by rw [h1]; rfl, ?_, h3, h4⟩
        intro p hp
        rcases List.mem_cons.1 hp with h0 | h0
        · rw [h0]; exact ha
        · exact h2 p h0
    · right
      refine ⟨[], a, rest, rfl, fun p hp => absurd hp (List.not_mem_nil p), ?_, ?_⟩
      · by_contra h
        exact ha (fun h' => absurd h' h)
      · cases hs : supported a with
        | false => rfl
        | true => exact absurd (fun _ => hs) ha

theorem gen_state (env : Env) (g : goGen) :
    ∃ s : String, (gen env g).state = g.Printf s := by
  rcases scope_split env g.pkg.pkg.scope with h | ⟨pre, o, post, h1, h2, h3, h4⟩
  · rw [gen_returned env g h]
    exact ⟨_, rfl⟩
  · rw [gen_panic env g pre post o h1 h2 h3 h4]
    exact ⟨_, rfl⟩

theorem fmt03d_value (i : Nat) : digitsValue 0 (fmt03d i).data = i := by
  have hv : digitsValue 0 (toString i).data = i := fmtD_value i
  have h0 : ∀ cs : List Char, digitsValue 0 ('0' :: cs) = digitsValue 0 cs := by
    intro cs
    simp [digitsValue]
  unfold fmt03d
  split
  · rw [String.data_append]
    show digitsValue 0 ('0' :: '0' :: (toString i).data) = i
    rw [h0, h0, hv]
  · split
    · rw [String.data_append]
      show digitsValue 0 ('0' :: (toString i).data) = i
      rw [h0, hv]
    · exact hv

theorem returnExpr_eq (env : Env) (i : Nat) (res : Var) :
    returnExpr env i res =
      if env.resNeedWrap res then
        env.resCgotype res ++ "(unsafe.Pointer(&" ++
          ("_gopy_" ++ fmt03d i ++ " /* " ++ env.resGoSyntax res ++ " " ++
            env.typeString res.type.Underlying ++ " */") ++ "))"
      else
        "_gopy_" ++ fmt03d i ++ " /* " ++ env.resGoSyntax res ++ " " ++
          env.typeString res.type.Underlying ++ " */" := by
  unfold returnExpr localName
  cases hw : env.resNeedWrap res <;> simp

theorem toDigitsCore_head (f n : Nat) (ds : List Char) (hn : 1 ≤ n) (hf : n < f) :
    ∃ d rest, Nat.toDigitsCore 10 f n ds = Nat.digitChar d :: rest ∧ 1 ≤ d ∧ d < 10 := by
  induction f generalizing n ds with
  | zero => omega
  | succ f ih =>
    simp only [Nat.toDigitsCore]
    split
    · next h0 =>
      refine ⟨n % 10, ds, rfl, ?_, Nat.mod_lt _ (by decide)⟩
      omega
    · next h0 =>
      exact ih (n / 10) _ (by omega) (by omega)

theorem fmtD_head (k : Nat) (hk : 1 ≤ k) : (fmtD k).data.head? ≠ some '0' := by
  rw [fmtD_data, Nat.toDigits]
  obtain ⟨d, rest, h, h1, h2⟩ := toDigitsCore_head (k + 1) k [] hk (Nat.lt_succ_self k)
  rw [h]
  simp only [List.head?_cons, ne_eq, Option.some.injEq]
  interval_cases d <;> decide

theorem exportNames_func (env : Env) (pkg : Package) (name : String) (sig : Signature)
    (hp : plain pkg.pkg.name = true) (hpath : oneLine pkg.pkg.path = true)
    (h : funcClean env name sig = true) :
    exportNames (blockOf env pkg (.Func name sig)) = ["GoPy_" ++ name] := by
  rw [blockOf_eq, declLines, exportNames_unlines _ (funcLines_oneLine env pkg name sig hp hpath h),
    funcLines_exports env pkg name sig hp]

theorem fieldExports_eq (env : Env) (name : String) (i : Nat) (f : Var) :
    fieldExports env name i f =
      if f.Exported env then
        (if env.needWrapType f.type then ["GoPy_" ++ name ++ "_field_" ++ fmtD (i + 1)]
         else []) ++
        ["GoPy_" ++ name ++ "_getter_" ++ fmtD (i + 1)]
      else [] := by
  unfold fieldExports
  cases f.Exported env <;> simp

theorem fieldLines_eq (env : Env) (pkgname name : String) (i : Nat) (f : Var) :
    fieldLines env pkgname name i f =
      if f.Exported env then
        (if env.needWrapType f.type then
          ["//export GoPy_" ++ name ++ "_field_" ++ fmtD (i + 1),
           "type GoPy_" ++ name ++ "_field_" ++ fmtD (i + 1) ++ " unsafe.Pointer",
           ""]
         else []) ++
        ["//export GoPy_" ++ name ++ "_getter_" ++ fmtD (i + 1),
         "func GoPy_" ++ name ++ "_getter_" ++ fmtD (i + 1) ++ "(self GoPy_" ++ name ++ ") " ++
           (if env.needWrapType f.type then "GoPy_" ++ name ++ "_field_" ++ fmtD (i + 1)
            else qualifiedType f.type) ++ " \x7b",
         "ret := (*" ++ pkgname ++ "." ++ name ++ ")(unsafe.Pointer(self))",
         (if env.needWrapType f.type then
            env.cgotype f.type ++ "(unsafe.Pointer(&ret." ++ f.name ++ "))"
          else "return ret." ++ f.name),
         "\x7d",
         ""]
      else [] := by
  unfold fieldLines
  cases f.Exported env <;> simp

theorem typeLine_injective (name : String) (a b : Nat)
    (h : "type GoPy_" ++ name ++ "_field_" ++ fmtD a ++ " unsafe.Pointer" =
      "type GoPy_" ++ name ++ "_field_" ++ fmtD b ++ " unsafe.Pointer") : a = b := by
  apply fmtD_injective
  apply String.ext
  have := congrArg String.data h
  simpa [String.data_append] using this

theorem ne_of_last_ne (s t : String) (a b : List Char) (x y : Char)
    (hs : s.data = a ++ [x]) (ht : t.data = b ++ [y]) (hxy : x ≠ y) : s ≠ t := by
  intro h
  rw [h, ht] at hs
  exact append_singleton_ne _ _ _ _ (Ne.symm hxy) hs

theorem count_typeLine_fieldLines (env : Env) (pkgname name : String) (i k : Nat) (f : Var) :
    (fieldLines env pkgname name i f).count
        ("type GoPy_" ++ name ++ "_field_" ++ fmtD k ++ " unsafe.Pointer") =
      if (f.Exported env && env.needWrapType f.type) = true ∧ i + 1 = k then 1 else 0 := by
  have n7 : env.cgotype f.type ++ "(unsafe.Pointer(&ret." ++ f.name ++ "))" ≠
      "type GoPy_" ++ name ++ "_field_" ++ fmtD k ++ " unsafe.Pointer" :=
    ne_of_last_ne _ _
      ((env.cgotype f.type).data ++ "(unsafe.Pointer(&ret.".data ++ f.name.data ++ [')'])
      ("type GoPy_".data ++ name.data ++ "_field_".data ++ (fmtD k).data ++
        " unsafe.Pointe".data) ')' 'r'
      (by simp [String.data_append]) (by simp [String.data_append]) (by decide)
  have hty : ("type GoPy_" ++ name ++ "_field_" ++ fmtD (i + 1) ++ " unsafe.Pointer" =
      "type GoPy_" ++ name ++ "_field_" ++ fmtD k ++ " unsafe.Pointer") ↔ i + 1 = k :=
    ⟨typeLine_injective name _ _, fun h => by rw [h]⟩
  have n1 : "//export GoPy_" ++ name ++ "_field_" ++ fmtD (i + 1) ≠
      "type GoPy_" ++ name ++ "_field_" ++ fmtD k ++ " unsafe.Pointer" := by
    simp [String.ext_iff, String.data_append]
  have n3 : "" ≠ "type GoPy_" ++ name ++ "_field_" ++ fmtD k ++ " unsafe.Pointer" := by
    simp [String.ext_iff, String.data_append]
  have n4 : "//export GoPy_" ++ name ++ "_getter_" ++ fmtD (i + 1) ≠
      "type GoPy_" ++ name ++ "_field_" ++ fmtD k ++ " unsafe.Pointer" := by
    simp [String.ext_iff, String.data_append]
  have n5 : ∀ rt : String, "func GoPy_" ++ name ++ "_getter_" ++ fmtD (i + 1) ++
      "(self GoPy_" ++ name ++ ") " ++ rt ++ " \x7b" ≠
      "type GoPy_" ++ name ++ "_field_" ++ fmtD k ++ " unsafe.Pointer" := by
    intro rt
    simp [String.ext_iff, String.data_append]
  have n6 : "ret := (*" ++ pkgname ++ "." ++ name ++ ")(unsafe.Pointer(self))" ≠
      "type GoPy_" ++ name ++ "_field_" ++ fmtD k ++ " unsafe.Pointer" := by
    simp [String.ext_iff, String.data_append]
  have n7b : "return ret." ++ f.name ≠
      "type GoPy_" ++ name ++ "_field_" ++ fmtD k ++ " unsafe.Pointer" := by
    simp [String.ext_iff, String.data_append]
  have n8 : "\x7d" ≠ "type GoPy_" ++ name ++ "_field_" ++ fmtD k ++ " unsafe.Pointer" := by
    simp [String.ext_iff, String.data_append]
  unfold fieldLines
  cases he : f.Exported env with
  | false => simp
  | true =>
    cases hw : env.needWrapType f.type with
    | false =>
      simp only [Bool.not_true, Bool.false_eq_true, if_false, List.nil_append, List.count_cons,
        List.count_nil, beq_iff_eq, n3, n4, n5, n6, n7b, n8, Bool.and_false, false_and]
    | true =>
      simp only [Bool.not_true, Bool.false_eq_true, if_false, if_true, List.cons_append,
        List.nil_append, List.count_cons, List.count_nil, beq_iff_eq, n1, n3, n4, n5, n6, n7,
        n8, hty, Bool.and_true, true_and]
      by_cases hik : i + 1 = k <;> simp [hik]

theorem count_typeLine_flatMap (env : Env) (pkgname name : String) (k : Nat)
    (ps : List (Nat × Var)) :
    (ps.flatMap (fun p => fieldLines env pkgname name p.1 p.2)).count
        ("type GoPy_" ++ name ++ "_field_" ++ fmtD k ++ " unsafe.Pointer") =
      ((ps.filter (fun p => p.2.Exported env && env.needWrapType p.2.type)).map
        (fun p => p.1 + 1)).count k := by
  induction ps with
  | nil => rfl
  | cons p ps ih =>
    rw [List.flatMap_cons, List.count_append, ih, count_typeLine_fieldLines, List.filter_cons]
    cases hc : (p.2.Exported env && env.needWrapType p.2.type) with
    | false => simp
    | true =>
      by_cases hk : p.1 + 1 = k
      · simp [hk, List.count_cons, Nat.add_comm]
      · simp [hk, List.count_cons]

theorem wrappedPositions_pairwise (env : Env) (fields : List Var) :
    List.Pairwise (fun a b => a < b) (wrappedPositions env fields) := by
  unfold wrappedPositions
  rw [List.pairwise_map]
  apply List.Pairwise.filter
  have h := List.pairwise_lt_range fields.length
  rw [← List.enum_map_fst fields, List.pairwise_map] at h
  exact h.imp (fun hab => Nat.succ_lt_succ hab)

theorem mem_wrappedPositions (env : Env) (fields : List Var) (k : Nat) :
    k ∈ wrappedPositions env fields ↔
      1 ≤ k ∧ ∃ f, fields[k - 1]? = some f ∧ f.Exported env = true ∧
        env.needWrapType f.type = true := by
  unfold wrappedPositions
  simp only [List.mem_map, List.mem_filter, List.mem_enum_iff_getElem?, Bool.and_eq_true]
  constructor
  · rintro ⟨p, ⟨hp, he, hw⟩, rfl⟩
    exact ⟨Nat.succ_pos _, p.2, by simpa using hp, he, hw⟩
  · rintro ⟨hk, f, hf, he, hw⟩
    refine ⟨(k - 1, f), ⟨hf, he, hw⟩, ?_⟩
    simp
    omega

theorem count_typeLine_structLines (env : Env) (pkgname name : String) (fields : List Var)
    (k : Nat) :
    (structLines env pkgname name fields ++ [""]).count
        ("type GoPy_" ++ name ++ "_field_" ++ fmtD k ++ " unsafe.Pointer") =
      if k ∈ wrappedPositions env fields then 1 else 0 := by
  have hnd : (wrappedPositions env fields).Nodup :=
    (wrappedPositions_pairwise env fields).imp (fun h => Nat.ne_of_lt h)
  have hcount : (wrappedPositions env fields).count k =
      if k ∈ wrappedPositions env fields then 1 else 0 := by
    by_cases hk : k ∈ wrappedPositions env fields
    · rw [if_pos hk, List.count_eq_one_of_mem hnd hk]
    · rw [if_neg hk, List.count_eq_zero_of_not_mem hk]
  unfold structLines
  rw [List.count_append, List.count_append, List.count_append, count_typeLine_flatMap]
  have hmid : ((fields.enum.filter (fun p => p.2.Exported env && env.needWrapType p.2.type)).map
      (fun p => p.1 + 1)).count k = (wrappedPositions env fields).count k := rfl
  rw [hmid, hcount]
  simp [List.count_cons, ctorLines, String.ext_iff, String.data_append]

theorem genLoop_filter (env : Env) (objs : List Object) (g : goGen) :
    genLoop env g (objs.filter (Object.Exported env)) = genLoop env g objs := by
  induction objs generalizing g with
  | nil => rfl
  | cons o rest ih =>
    cases he : o.Exported env with
    | false =>
      rw [List.filter_cons_of_neg (by simp [he]), ih]
      conv => rhs; unfold genLoop
      simp [he]
    | true =>
      rw [List.filter_cons_of_pos he]
      unfold genLoop
      cases o with
      | Const n => simp [he]
      | Var n => simp [he]
      | Other n => simp [he]
      | Func n sig => simp [he, ih]
      | TypeName n decl =>
        cases decl with
        | Interface => simp [he]
        | Other u => simp [he]
        | Struct fields => simp [he, ih]

theorem declLines_congr (env : Env) (pkg1 pkg2 : Package) (o : Object)
    (hn : pkg1.pkg.name = pkg2.pkg.name) (hp : pkg1.pkg.path = pkg2.pkg.path) :
    declLines env pkg1 o = declLines env pkg2 o := by
  cases o with
  | Const n => rfl
  | Var n => rfl
  | Other n => rfl
  | Func n sig => simp [declLines, funcLines, FullName, Package.Name, hn, hp]
  | TypeName n decl =>
    cases decl with
    | Interface => rfl
    | Other u => rfl
    | Struct fields => simp [declLines, hn]

theorem gen_text_returned (env : Env) (g : goGen)
    (h : ∀ o ∈ g.pkg.pkg.scope, o.Exported env = true → supported o = true) :
    (gen env g).text = g.printer.buf ++
        (goPreamble g.pkg.pkg.name (env.quote g.pkg.pkg.path) ++
          unlines ((g.pkg.pkg.scope.filter (Object.Exported env)).flatMap (declLines env g.pkg)) ++
          trailer (env.quote g.pkg.Name)) ∧
    (gen env g).outcome = if g.err.length > 0 then .err g.err else .nil := by
  rw [gen_returned env g h]
  refine ⟨rfl, ?_⟩
  by_cases he : g.err.length > 0 <;> simp [he, GenEnd.outcome]

theorem gen_text_panic (env : Env) (g : goGen) (pre post : List Object) (o : Object)
    (hscope : g.pkg.pkg.scope.filter (Object.Exported env) = pre ++ o :: post)
    (hs : ∀ p ∈ pre, supported p = true) (ho : supported o = false) :
    (gen env g).text = g.printer.buf ++
        (goPreamble g.pkg.pkg.name (env.quote g.pkg.pkg.path) ++
          unlines (pre.flatMap (declLines env g.pkg))) ∧
    (gen env g).outcome = .panic o := by
  have hoe : o.Exported env = true := by
    have : o ∈ g.pkg.pkg.scope.filter (Object.Exported env) := by
      rw [hscope]; exact List.mem_append_right _ (List.mem_cons_self _ _)
    exact (List.mem_filter.1 this).2
  have hpe : ∀ p ∈ pre, p.Exported env = true := by
    intro p hp
    have : p ∈ g.pkg.pkg.scope.filter (Object.Exported env) := by
      rw [hscope]; exact List.mem_append_left _ hp
    exact (List.mem_filter.1 this).2
  have hfp : pre.filter (Object.Exported env) = pre :=
    List.filter_eq_self.2 hpe
  unfold gen
  simp only [genPreamble, Printf_pkg]
  rw [← genLoop_filter, hscope, genLoop_panic env pre post o _ (fun p hp _ => hs p hp) hoe ho,
    hfp]
  simp only [Printf_Printf, Printf_pkg]
  exact ⟨rfl, rfl⟩

theorem header_injective (name rt rt' : String) (a b : Nat)
    (h : "func GoPy_" ++ name ++ "_getter_" ++ fmtD a ++ "(self GoPy_" ++ name ++ ") " ++ rt ++
        " \x7b" =
      "func GoPy_" ++ name ++ "_getter_" ++ fmtD b ++ "(self GoPy_" ++ name ++ ") " ++ rt' ++
        " \x7b") : a = b := by
  have hd := congrArg String.data h
  have hd' : (fmtD a).data ++ '(' :: ("self GoPy_".data ++ name.data ++ ") ".data ++ rt.data ++
        " \x7b".data) =
      (fmtD b).data ++ '(' :: ("self GoPy_".data ++ name.data ++ ") ".data ++ rt'.data ++
        " \x7b".data) := by
    simpa [String.data_append] using hd
  have hpa : '(' ∉ (fmtD a).data := fun hm => absurd (fmtD_isDigit a _ hm) (by decide)
  have hpb : '(' ∉ (fmtD b).data := fun hm => absurd (fmtD_isDigit b _ hm) (by decide)
  exact fmtD_injective a b (String.ext (first_sep_unique '(' _ _ _ _ hpa hpb hd').1)

theorem header_result_injective (name rt rt' : String) (k : Nat)
    (h : "func GoPy_" ++ name ++ "_getter_" ++ fmtD k ++ "(self GoPy_" ++ name ++ ") " ++ rt ++
        " \x7b" =
      "func GoPy_" ++ name ++ "_getter_" ++ fmtD k ++ "(self GoPy_" ++ name ++ ") " ++ rt' ++
        " \x7b") : rt = rt' := by
  have hd := congrArg String.data h
  simp only [String.data_append, List.append_assoc, List.append_cancel_left_eq] at hd
  exact String.ext (List.append_cancel_right hd)

theorem mem_fieldLines_header (env : Env) (pkgname name rt : String) (i k : Nat) (f : Var)
    (h : "func GoPy_" ++ name ++ "_getter_" ++ fmtD k ++ "(self GoPy_" ++ name ++ ") " ++ rt ++
        " \x7b" ∈ fieldLines env pkgname name i f) :
    f.Exported env = true ∧ i + 1 = k ∧
      rt = (if env.needWrapType f.type then "GoPy_" ++ name ++ "_field_" ++ fmtD k
            else qualifiedType f.type) := by
  have n7 : "func GoPy_" ++ name ++ "_getter_" ++ fmtD k ++ "(self GoPy_" ++ name ++ ") " ++
      rt ++ " \x7b" ≠ env.cgotype f.type ++ "(unsafe.Pointer(&ret." ++ f.name ++ "))" :=
    ne_of_last_ne _ _
      ("func GoPy_".data ++ name.data ++ "_getter_".data ++ (fmtD k).data ++
        "(self GoPy_".data ++ name.data ++ ") ".data ++ rt.data ++ [' '])
      ((env.cgotype f.type).data ++ "(unsafe.Pointer(&ret.".data ++ f.name.data ++ [')'])
      '{' ')'
      (by simp [String.data_append]) (by simp [String.data_append]) (by decide)
  have n1 : "func GoPy_" ++ name ++ "_getter_" ++ fmtD k ++ "(self GoPy_" ++ name ++ ") " ++
      rt ++ " \x7b" ≠ "//export GoPy_" ++ name ++ "_field_" ++ fmtD (i + 1) := by
    simp [String.ext_iff, String.data_append]
  have n2 : "func GoPy_" ++ name ++ "_getter_" ++ fmtD k ++ "(self GoPy_" ++ name ++ ") " ++
      rt ++ " \x7b" ≠ "type GoPy_" ++ name ++ "_field_" ++ fmtD (i + 1) ++ " unsafe.Pointer" := by
    simp [String.ext_iff, String.data_append]
  have n3 : "func GoPy_" ++ name ++ "_getter_" ++ fmtD k ++ "(self GoPy_" ++ name ++ ") " ++
      rt ++ " \x7b" ≠ "" := by
    simp [String.ext_iff, String.data_append]
  have n4 : "func GoPy_" ++ name ++ "_getter_" ++ fmtD k ++ "(self GoPy_" ++ name ++ ") " ++
      rt ++ " \x7b" ≠ "//export GoPy_" ++ name ++ "_getter_" ++ fmtD (i + 1) := by
    simp [String.ext_iff, String.data_append]
  have n6 : "func GoPy_" ++ name ++ "_getter_" ++ fmtD k ++ "(self GoPy_" ++ name ++ ") " ++
      rt ++ " \x7b" ≠ "ret := (*" ++ pkgname ++ "." ++ name ++ ")(unsafe.Pointer(self))" := by
    simp [String.ext_iff, String.data_append]
  have n7b : "func GoPy_" ++ name ++ "_getter_" ++ fmtD k ++ "(self GoPy_" ++ name ++ ") " ++
      rt ++ " \x7b" ≠ "return ret." ++ f.name := by
    simp [String.ext_iff, String.data_append]
  have n8 : "func GoPy_" ++ name ++ "_getter_" ++ fmtD k ++ "(self GoPy_" ++ name ++ ") " ++
      rt ++ " \x7b" ≠ "\x7d" := by
    simp [String.ext_iff, String.data_append]
  rw [fieldLines_eq] at h
  cases he : f.Exported env with
  | false => simp [he] at h
  | true =>
    refine ⟨rfl, ?_⟩
    cases hw : env.needWrapType f.type with
    | false =>
      simp only [he, hw, if_true, if_false, Bool.false_eq_true, List.nil_append, List.mem_cons,
        List.mem_singleton, List.not_mem_nil, or_false, n3, n4, n6, n7b, n8, false_or] at h
      have hk := (header_injective name _ _ _ _ h).symm
      subst hk
      exact ⟨rfl, by simpa using header_result_injective name _ _ _ h⟩
    | true =>
      simp only [he, hw, if_true, List.cons_append, List.nil_append, List.mem_cons,
        List.mem_singleton, List.not_mem_nil, or_false, n1, n2, n3, n4, n6, n7, n8,
        false_or] at h
      have hk := (header_injective name _ _ _ _ h).symm
      subst hk
      exact ⟨rfl, by simpa using header_result_injective name _ _ _ h⟩

theorem mem_structLines_header (env : Env) (pkgname name rt : String) (k : Nat)
    (fields : List Var)
    (h : "func GoPy_" ++ name ++ "_getter_" ++ fmtD k ++ "(self GoPy_" ++ name ++ ") " ++ rt ++
        " \x7b" ∈ structLines env pkgname name fields ++ [""]) :
    1 ≤ k ∧ ∃ f, fields[k - 1]? = some f ∧ f.Exported env = true ∧
      rt = (if env.needWrapType f.type then "GoPy_" ++ name ++ "_field_" ++ fmtD k
            else qualifiedType f.type) := by
  simp only [structLines, ctorLines, List.mem_append, List.mem_flatMap, List.mem_cons,
    List.mem_singleton, List.not_mem_nil, or_false] at h
  rcases h with (((h | h | h) | ⟨p, hp, hl⟩) | (h | h | h | h | h)) | h
  · simp [String.ext_iff, String.data_append] at h
  · simp [String.ext_iff, String.data_append] at h
  · simp [String.ext_iff, String.data_append] at h
  · obtain ⟨he, hk, hrt⟩ := mem_fieldLines_header env pkgname name rt p.1 k p.2 hl
    have hf : fields[p.1]? = some p.2 := List.mk_mem_enum_iff_getElem?.1 hp
    subst hk
    exact ⟨by omega, p.2, by simpa using hf, he, hrt⟩
  · simp [String.ext_iff, String.data_append] at h
  · simp [String.ext_iff, String.data_append] at h
  · simp [String.ext_iff, String.data_append] at h
  · simp [String.ext_iff, String.data_append] at h
  · simp [String.ext_iff, String.data_append] at h
  · simp [String.ext_iff, String.data_append] at h

theorem header_mem_structLines (env : Env) (pkgname name : String) (k : Nat)
    (fields : List Var) (f : Var) (hk : 1 ≤ k) (hf : fields[k - 1]? = some f)
    (he : f.Exported env = true) :
    "func GoPy_" ++ name ++ "_getter_" ++ fmtD k ++ "(self GoPy_" ++ name ++ ") " ++
        (if env.needWrapType f.type then "GoPy_" ++ name ++ "_field_" ++ fmtD k
         else qualifiedType f.type) ++ " \x7b" ∈
      structLines env pkgname name fields ++ [""] := by
  have hp : (k - 1, f) ∈ fields.enum := List.mk_mem_enum_iff_getElem?.2 hf
  have hk1 : k - 1 + 1 = k := by omega
  apply List.mem_append_left
  unfold structLines
  apply List.mem_append_left
  apply List.mem_append_right
  refine List.mem_flatMap.2 ⟨(k - 1, f), hp, ?_⟩
  rw [fieldLines_eq]
  simp only [he, if_true, hk1]
  cases hw : env.needWrapType f.type <;> simp

theorem structLines_closed (env : Env) (pkgname name : String) (fields : List Var) :
    structLines env pkgname name fields =
      ["//export GoPy_" ++ name, "type GoPy_" ++ name ++ " unsafe.Pointer", ""] ++
       fields.enum.flatMap (fun p =>
         if p.2.Exported env then
           (if env.needWrapType p.2.type then
             ["//export GoPy_" ++ name ++ "_field_" ++ fmtD (p.1 + 1),
              "type GoPy_" ++ name ++ "_field_" ++ fmtD (p.1 + 1) ++ " unsafe.Pointer",
              ""]
            else []) ++
           ["//export GoPy_" ++ name ++ "_getter_" ++ fmtD (p.1 + 1),
            "func GoPy_" ++ name ++ "_getter_" ++ fmtD (p.1 + 1) ++
              "(self GoPy_" ++ name ++ ") " ++
              (if env.needWrapType p.2.type then
                 "GoPy_" ++ name ++ "_field_" ++ fmtD (p.1 + 1)
               else qualifiedType p.2.type) ++ " \x7b",
            "ret := (*" ++ pkgname ++ "." ++ name ++ ")(unsafe.Pointer(self))",
            (if env.needWrapType p.2.type then
               env.cgotype p.2.type ++ "(unsafe.Pointer(&ret." ++ p.2.name ++ "))"
             else "return ret." ++ p.2.name),
            "\x7d",
            ""]
         else []) ++
       ["//export GoPy_" ++ name ++ "_new",
        "func GoPy_" ++ name ++ "_new() GoPy_" ++ name ++ " \x7b",
        "return (GoPy_" ++ name ++ ")(unsafe.Pointer(&" ++ pkgname ++ "." ++ name ++
          "\x7b\x7d))",
        "\x7d",
        ""] := by
  rw [structLines, ctorLines]
  congr 2
  apply List.flatMap_congr
  intro p _
  exact fieldLines_eq env pkgname name p.1 p.2

/-! ## The claims -/

/-- C1, as stated, fails: in a package with an exported struct `S` and an
exported function `S_new` the names of the exported declarations are pairwise
distinct, but the text of `gen` has two export lines with the name
`GoPy_S_new`: that of the constructor of `S` and that of the wrapper of
`S_new`. -/
theorem gen_export_name_collision :
    ((pkgSNew.pkg.scope.filter (Object.Exported specEnv)).map Object.Name).Nodup ∧
    exportNames (gen specEnv (newGoGen pkgSNew)).text =
      ["CGoPy_GoString", "CGoPy_CString", "GoPy_S", "GoPy_S_new", "GoPy_S_new"] ∧
    ¬ (exportNames (gen specEnv (newGoGen pkgSNew)).text).Nodup := by
  have h : exportNames (gen specEnv (newGoGen pkgSNew)).text =
      ["CGoPy_GoString", "CGoPy_CString", "GoPy_S", "GoPy_S_new", "GoPy_S_new"] := by
    rfl
  refine ⟨by decide, h, ?_⟩
  rw [h]
  decide

/-- C1, amended: for a package whose exported declarations are all functions or
struct types, are named by identifiers (no newline in what is written), have
pairwise distinct names, and none of which is named `<S>_new`, `<S>_field_<k>`
or `<S>_getter_<k>` for an exported struct `S` of the package, no two export
lines of the text of `gen` carry the same name. -/
theorem gen_export_names_nodup (env : Env) (pkg : Package)
    (hsup : ∀ o ∈ pkg.pkg.scope, o.Exported env = true → supported o = true)
    (hclean : pkgClean env pkg = true)
    (hnames : ((pkg.pkg.scope.filter (Object.Exported env)).map Object.Name).Nodup)
    (hder : ∀ o ∈ pkg.pkg.scope, o.Exported env = true →
      ∀ s fields, Object.TypeName s (.Struct fields) ∈ pkg.pkg.scope → isExported env s = true →
      ∀ k, o.Name ≠ s ++ "_new" ∧ o.Name ≠ s ++ "_field_" ++ fmtD k ∧
        o.Name ≠ s ++ "_getter_" ++ fmtD k) :
    (exportNames (gen env (newGoGen pkg)).text).Nodup := by
  rw [exportNames_gen env pkg hsup hclean]
  have hmem : ∀ o ∈ pkg.pkg.scope.filter (Object.Exported env),
      o ∈ pkg.pkg.scope ∧ o.Exported env = true := fun o ho => List.mem_filter.1 ho
  -- a base name never is a derived name of an exported struct of the package
  have hcross : ∀ a ∈ pkg.pkg.scope.filter (Object.Exported env),
      ∀ b ∈ pkg.pkg.scope.filter (Object.Exported env),
      (∃ fields, b = .TypeName b.Name (.Struct fields)) →
      ¬ IsDerived b.Name ("GoPy_" ++ a.Name) := by
    intro a ha b hb ⟨fields, hbf⟩ hd
    have hbs : Object.TypeName b.Name (.Struct fields) ∈ pkg.pkg.scope := hbf ▸ (hmem b hb).1
    have hbe : isExported env b.Name = true := (hmem b hb).2
    rcases name_of_derived a.Name b.Name hd with h | ⟨k, h | h⟩
    · exact (hder a (hmem a ha).1 (hmem a ha).2 b.Name fields hbs hbe 0).1 h
    · exact (hder a (hmem a ha).1 (hmem a ha).2 b.Name fields hbs hbe k).2.1 h
    · exact (hder a (hmem a ha).1 (hmem a ha).2 b.Name fields hbs hbe k).2.2 h
  have hdisj : ∀ a ∈ pkg.pkg.scope.filter (Object.Exported env),
      ∀ b ∈ pkg.pkg.scope.filter (Object.Exported env), a.Name ≠ b.Name →
      List.Disjoint (declExports env a) (declExports env b) := by
    intro a ha b hb hab x hxa hxb
    rcases mem_declExports env a x hxa with h1 | ⟨hs1, h1⟩ <;>
      rcases mem_declExports env b x hxb with h2 | ⟨hs2, h2⟩
    · exact hab (GoPy_name_injective _ _ (h1.symm.trans h2))
    · exact hcross a ha b hb hs2 (h1 ▸ h2)
    · exact hcross b hb a ha hs1 (h2 ▸ h1)
    · exact hab (derived_same_struct _ _ x h1 h2)
  have hpw : List.Pairwise (fun a b => List.Disjoint (declExports env a) (declExports env b))
      (pkg.pkg.scope.filter (Object.Exported env)) := by
    have hn : List.Pairwise (fun a b => a.Name ≠ b.Name)
        (pkg.pkg.scope.filter (Object.Exported env)) := by
      rw [List.Nodup, List.pairwise_map] at hnames
      exact hnames
    exact hn.imp_of_mem (fun ha hb hab => hdisj _ ha _ hb hab)
  rw [List.nodup_append]
  refine ⟨by decide, List.nodup_flatMap.2 ⟨fun o _ => declExports_nodup env o, hpw⟩, ?_⟩
  intro x hx hy
  obtain ⟨o, _, ho⟩ := List.mem_flatMap.1 hy
  have hG : x.data.head? = some 'G' := by
    rcases mem_declExports env o x ho with h | ⟨_, h | ⟨k, h | h⟩⟩ <;>
      rw [h] <;> simp [String.data_append]
  simp only [List.mem_cons, List.mem_singleton, List.not_mem_nil, or_false] at hx
  rcases hx with h | h <;> rw [h] at hG <;> exact absurd hG (by decide)

/-- C1, amended, an instance: a package with the function `New` and the struct
`S` with the fields `[A int, b int, C OtherStruct]`. -/
theorem gen_export_names_nodup_witness :
    (∀ o ∈ pkgNewS.pkg.scope, o.Exported specEnv = true → supported o = true) ∧
    pkgClean specEnv pkgNewS = true ∧
    ((pkgNewS.pkg.scope.filter (Object.Exported specEnv)).map Object.Name).Nodup ∧
    (exportNames (gen specEnv (newGoGen pkgNewS)).text).Nodup :=
  ⟨by decide, by decide, by decide,
   gen_export_names_nodup specEnv pkgNewS (by decide) (by decide) (by decide) (by
    intro o ho _ s fields hs _ k
    simp only [pkgNewS, List.mem_cons, List.mem_singleton, List.not_mem_nil, or_false] at ho hs
    have hs' : s = "S" := by
      rcases hs with h | h
      · cases h
      · injection h with h1 _
    subst hs'
    rcases ho with h | h <;> subst h <;>
      simp [Object.Name, String.ext_iff, String.data_append])⟩

/-- C2: the block that `genStruct` emits for a struct is the handle type, then
for every exported field, in the order of the fields, its getter, then the
constructor; the getter of the field at raw position `k` (1-based, counting
all fields) has the export line `//export GoPy_<name>_getter_<k>` immediately
followed by the function header
`func GoPy_<name>_getter_<k>(self GoPy_<name>) <result type> {`, both with the
same `k`. The export names of getters are, in order, `GoPy_<name>_getter_<k>`
for the raw positions `k` of the exported fields; these positions are strictly
increasing; `k` is among them exactly when the field at raw position `k` is
exported; a getter named `GoPy_<name>_getter_<k>` is exported exactly then; and
a function header of a getter `GoPy_<name>_getter_<k>` with the result type `rt`
is a line of the block exactly when the field at raw position `k` is exported
and `rt` is its result type. A non-exported field yields no getter and its
position is skipped. -/
theorem genStruct_getters_positional (env : Env) (pkg : Package) (name : String)
    (fields : List Var) (h : structClean env pkg.pkg.name name fields = true) :
    (exportNames (blockOf env pkg (.TypeName name (.Struct fields)))).filter (isGetterOf name) =
      (exportedPositions env fields).map (fun k => "GoPy_" ++ name ++ "_getter_" ++ fmtD k) ∧
    List.Pairwise (fun a b => a < b) (exportedPositions env fields) ∧
    (∀ k, k ∈ exportedPositions env fields ↔
      1 ≤ k ∧ ∃ f, fields[k - 1]? = some f ∧ f.Exported env = true) ∧
    (∀ k, "GoPy_" ++ name ++ "_getter_" ++ fmtD k ∈
        exportNames (blockOf env pkg (.TypeName name (.Struct fields))) ↔
      1 ≤ k ∧ ∃ f, fields[k - 1]? = some f ∧ f.Exported env = true) ∧
    (∀ k rt, "func GoPy_" ++ name ++ "_getter_" ++ fmtD k ++ "(self GoPy_" ++ name ++ ") " ++
          rt ++ " \x7b" ∈ textLines (blockOf env pkg (.TypeName name (.Struct fields))) ↔
      1 ≤ k ∧ ∃ f, fields[k - 1]? = some f ∧ f.Exported env = true ∧
        rt = (if env.needWrapType f.type then "GoPy_" ++ name ++ "_field_" ++ fmtD k
              else qualifiedType f.type)) ∧
    blockOf env pkg (.TypeName name (.Struct fields)) = unlines
      (["//export GoPy_" ++ name, "type GoPy_" ++ name ++ " unsafe.Pointer", ""] ++
       fields.enum.flatMap (fun p =>
         if p.2.Exported env then
           (if env.needWrapType p.2.type then
             ["//export GoPy_" ++ name ++ "_field_" ++ fmtD (p.1 + 1),
              "type GoPy_" ++ name ++ "_field_" ++ fmtD (p.1 + 1) ++ " unsafe.Pointer",
              ""]
            else []) ++
           ["//export GoPy_" ++ name ++ "_getter_" ++ fmtD (p.1 + 1),
            "func GoPy_" ++ name ++ "_getter_" ++ fmtD (p.1 + 1) ++
              "(self GoPy_" ++ name ++ ") " ++
              (if env.needWrapType p.2.type then
                 "GoPy_" ++ name ++ "_field_" ++ fmtD (p.1 + 1)
               else qualifiedType p.2.type) ++ " \x7b",
            "ret := (*" ++ pkg.pkg.name ++ "." ++ name ++ ")(unsafe.Pointer(self))",
            (if env.needWrapType p.2.type then
               env.cgotype p.2.type ++ "(unsafe.Pointer(&ret." ++ p.2.name ++ "))"
             else "return ret." ++ p.2.name),
            "\x7d",
            ""]
         else []) ++
       ["//export GoPy_" ++ name ++ "_new",
        "func GoPy_" ++ name ++ "_new() GoPy_" ++ name ++ " \x7b",
        "return (GoPy_" ++ name ++ ")(unsafe.Pointer(&" ++ pkg.pkg.name ++ "." ++ name ++
          "\x7b\x7d))",
        "\x7d",
        ""]) := by
  have h1 : (exportNames (blockOf env pkg (.TypeName name (.Struct fields)))).filter
        (isGetterOf name) =
      (exportedPositions env fields).map (fun k => "GoPy_" ++ name ++ "_getter_" ++ fmtD k) := by
    rw [exportNames_struct env pkg name fields h, structExports_filter]
  refine ⟨h1, exportedPositions_pairwise env fields, mem_exportedPositions env fields, ?_, ?_, ?_⟩
  · intro k
    rw [← mem_exportedPositions]
    constructor
    · intro hk
      have hm : "GoPy_" ++ name ++ "_getter_" ++ fmtD k ∈
          (exportNames (blockOf env pkg (.TypeName name (.Struct fields)))).filter
            (isGetterOf name) :=
        List.mem_filter.2 ⟨hk, isGetterOf_getter name k⟩
      rw [h1, List.mem_map] at hm
      obtain ⟨j, hj, hjk⟩ := hm
      rw [← getterName_injective name j k hjk]
      exact hj
    · intro hk
      have hm : "GoPy_" ++ name ++ "_getter_" ++ fmtD k ∈
          (exportedPositions env fields).map
            (fun k => "GoPy_" ++ name ++ "_getter_" ++ fmtD k) :=
        List.mem_map.2 ⟨k, hk, rfl⟩
      rw [← h1] at hm
      exact (List.mem_filter.1 hm).1
  · intro k rt
    rw [blockOf_eq, declLines, textLines_unlines _ (structLines_oneLine _ _ _ _ h)]
    constructor
    · exact mem_structLines_header env pkg.pkg.name name rt k fields
    · rintro ⟨hk, f, hf, he, hrt⟩
      rw [hrt]
      exact header_mem_structLines env pkg.pkg.name name k fields f hk hf he
  · rw [blockOf_eq, declLines, structLines_closed]

/-- C2, two instances. The fields `[A int, b int, C OtherStruct]` of a struct
`S` yield exactly the getters of the positions 1 and 3, and the header of the
getter of position 3 is a line of the block while no getter of position 2 has
a header. The fields `[Été int, été int, Z int]` yield exactly the getters of
the positions 1 and 3: a name that starts with an upper-case letter outside
ASCII is exported. -/
theorem genStruct_getters_positional_witness :
    structClean specEnv "p" "S" fieldsAbC = true ∧
    (exportNames (blockOf specEnv ⟨⟨"p", "x/p", []⟩⟩ (.TypeName "S" (.Struct fieldsAbC)))).filter
        (isGetterOf "S") = ["GoPy_S_getter_1", "GoPy_S_getter_3"] ∧
    exportedPositions specEnv fieldsAbC = [1, 3] ∧
    "func GoPy_S_getter_3(self GoPy_S) GoPy_S_field_3 \x7b" ∈
      textLines (blockOf specEnv ⟨⟨"p", "x/p", []⟩⟩ (.TypeName "S" (.Struct fieldsAbC))) ∧
    (∀ rt, "func GoPy_S_getter_2(self GoPy_S) " ++ rt ++ " \x7b" ∉
      textLines (blockOf specEnv ⟨⟨"p", "x/p", []⟩⟩ (.TypeName "S" (.Struct fieldsAbC)))) ∧
    structClean specEnv "p" "S" fieldsLatin = true ∧
    (exportNames (blockOf specEnv ⟨⟨"p", "x/p", []⟩⟩
        (.TypeName "S" (.Struct fieldsLatin)))).filter (isGetterOf "S") =
      ["GoPy_S_getter_1", "GoPy_S_getter_3"] :=
  ⟨by decide,
   by rw [(genStruct_getters_positional specEnv ⟨⟨"p", "x/p", []⟩⟩ "S" fieldsAbC (by decide)).1]; rfl,
   by decide,
   ((genStruct_getters_positional specEnv ⟨⟨"p", "x/p", []⟩⟩ "S" fieldsAbC
      (by decide)).2.2.2.2.1 3 "GoPy_S_field_3").2
     ⟨by decide, ⟨"C", .Named "OtherStruct" (.Composite .Struct)⟩, rfl, by decide, by decide⟩,
   fun rt hm => by
     obtain ⟨_, f, hf, he, _⟩ :=
       ((genStruct_getters_positional specEnv ⟨⟨"p", "x/p", []⟩⟩ "S" fieldsAbC
         (by decide)).2.2.2.2.1 2 rt).1 hm
     have hf2 : f = ⟨"b", .Basic "int"⟩ := by
       simpa [fieldsAbC] using hf.symm
     subst hf2
     exact absurd he (by decide),
   by decide,
   by rw [(genStruct_getters_positional specEnv ⟨⟨"p", "x/p", []⟩⟩ "S" fieldsLatin
        (by decide)).1]; rfl⟩

/-- C3, as stated, fails: for a package with an exported interface type `A` and
an exported function `F`, `gen` does not return: it panics at `A`, with an
empty error list and only the preamble emitted, so without the wrapper of
`F`. -/
theorem gen_panics_at_interface :
    gen specEnv (newGoGen pkgIface) = .panic
      { printer := { buf := goPreamble "p" "\"x/p\"", indent := 0 },
        pkg := pkgIface,
        err := [] }
      (.TypeName "A" .Interface) ∧
    ¬ ∃ g d, gen specEnv (newGoGen pkgIface) = .returned g (some [d]) := by
  have h : gen specEnv (newGoGen pkgIface) = .panic
      { printer := { buf := goPreamble "p" "\"x/p\"", indent := 0 },
        pkg := pkgIface,
        err := [] }
      (.TypeName "A" .Interface) := by rfl
  refine ⟨h, ?_⟩
  rintro ⟨g, d, hg⟩
  rw [h] at hg
  cases hg

/-- C3, amended: when the scope has an exported declaration that is not a
function or a struct type, `gen` panics at the first one and records no
diagnostic: the text emitted is the preamble and the blocks of the exported
declarations before it, the declarations after it are not processed, the
trailer is not emitted and the error list stays empty. -/
theorem gen_panics_at_first_unsupported (env : Env) (pkg : Package)
    (pre post : List Object) (o : Object)
    (hscope : pkg.pkg.scope = pre ++ o :: post)
    (hpre : ∀ p ∈ pre, p.Exported env = true → supported p = true)
    (he : o.Exported env = true) (hs : supported o = false) :
    gen env (newGoGen pkg) = .panic
      { printer :=
          { buf := goPreamble pkg.pkg.name (env.quote pkg.pkg.path) ++
              String.join ((pre.filter (Object.Exported env)).map (blockOf env pkg)),
            indent := 0 },
        pkg := pkg,
        err := [] }
      o := by
  rw [gen_panic env (newGoGen pkg) pre post o hscope hpre he hs, newGoGen_Printf, join_blockOf]
  rfl

/-- C3, amended, an instance: an exported function `F`, then an exported
constant `K`, then an exported function `Z`. -/
theorem gen_panics_at_first_unsupported_witness :
    gen specEnv (newGoGen ⟨⟨"p", "x/p", [.Func "F" ⟨[], []⟩, .Const "K", .Func "Z" ⟨[], []⟩]⟩⟩) =
      .panic
        { printer :=
            { buf := goPreamble "p" "\"x/p\"" ++
                "\n//export GoPy_F\n// GoPy_F wraps x/p.F\nfunc GoPy_F() \x7b\np.F()\n\x7d\n\n",
              indent := 0 },
          pkg := ⟨⟨"p", "x/p", [.Func "F" ⟨[], []⟩, .Const "K", .Func "Z" ⟨[], []⟩]⟩⟩,
          err := [] }
        (.Const "K") := by
  rw [gen_panics_at_first_unsupported specEnv
    ⟨⟨"p", "x/p", [.Func "F" ⟨[], []⟩, .Const "K", .Func "Z" ⟨[], []⟩]⟩⟩
    [.Func "F" ⟨[], []⟩] [.Func "Z" ⟨[], []⟩] (.Const "K") rfl (by decide) (by decide)
    (by decide)]
  rfl

/-- C4, as stated, fails: for the function `F(xs []int)` the translation of the
slice type does not fail; it is the string `*types.Slice`, and `gen` returns
`nil` with that string emitted as the type of `xs` in the wrapper. -/
theorem gen_emits_unsupported_type :
    qualifiedType (.Composite .Slice) = "*types.Slice" ∧
    gen specEnv (newGoGen pkgSlice) = .returned
      { printer :=
          { buf := goPreamble "p" "\"x/p\"" ++
              "\n//export GoPy_F\n// GoPy_F wraps x/p.F\nfunc GoPy_F(xs *types.Slice) \x7b\np.F(xs)\n\x7d\n\n" ++
              trailer "\"p\"",
            indent := 0 },
        pkg := pkgSlice,
        err := [] }
      none := by
  constructor
  · rfl
  · rfl

/-- C4, amended: for a type that is neither basic nor named, `qualifiedType`
returns the Go syntax of the dynamic type of the value (`*types.Slice`,
`*types.Pointer`, `*types.Map`, ...), and `tupleString` emits it as the type
of the parameter or result; nothing fails. -/
theorem qualifiedType_composite (c : Composite) (n : String) (pre post : List Var) :
    qualifiedType (.Composite c) = c.goSyntax ∧
    tupleString (pre ++ ⟨n, .Composite c⟩ :: post) =
      ", ".intercalate
        (pre.map (fun v => v.name ++ " " ++ qualifiedType v.type) ++
          (n ++ " " ++ c.goSyntax) ::
          post.map (fun v => v.name ++ " " ++ qualifiedType v.type)) := by
  refine ⟨rfl, ?_⟩
  rw [tupleString_eq]
  simp [qualifiedType]

/-- C5, as stated, fails: for the results `(x int, y string)` the clause is
`(x int, y string) `, with the names of the results, and not the tuple of the
translated types. -/
theorem genFuncRet_named_results :
    genFuncRet sigNamed2 = "(x int, y string) " ∧
    genFuncRet sigNamed2 ≠
      "(" ++ ", ".intercalate (sigNamed2.results.map (fun r => qualifiedType r.type)) ++ ") " := by
  constructor
  · rfl
  · decide

/-- C5, amended: the clause is one blank when there is no result; the
translated type between two blanks when there is one unnamed result; and, when
there are two results or more, the parenthesized list, separated by `, `, of
the name of each result, a blank and its translated type, in order, followed
by a blank. -/
theorem genFuncRet_cases (params : List Var) (t : GoType) (r1 r2 : Var) (rest : List Var) :
    genFuncRet ⟨params, []⟩ = " " ∧
    genFuncRet ⟨params, [⟨"", t⟩]⟩ = " " ++ qualifiedType t ++ " " ∧
    genFuncRet ⟨params, r1 :: r2 :: rest⟩ =
      "(" ++ ", ".intercalate
        ((r1 :: r2 :: rest).map (fun r => r.name ++ " " ++ qualifiedType r.type)) ++ ") " := by
  refine ⟨rfl, ?_, ?_⟩
  · simp only [genFuncRet, tupleString_eq]
    apply String.ext
    simp [String.intercalate, String.intercalate.go, String.data_append]
  · simp only [genFuncRet, tupleString_eq]
    simp

/-- C6: for the struct `S` with one exported field `C` of the named struct type
`Other`, which needs wrapping, the body of the getter that `genStruct` emits is
the two lines `ret := ...` and `GoPy_Other(unsafe.Pointer(&ret.C))`: the handle
expression is emitted as a statement, without `return`. -/
theorem genStruct_wrapped_getter_has_no_return :
    genStruct specEnv (newGoGen ⟨⟨"p", "x/p", []⟩⟩) "S"
        [⟨"C", .Named "Other" (.Composite .Struct)⟩] =
      { printer :=
          { buf := "//export GoPy_S\ntype GoPy_S unsafe.Pointer\n\n" ++
              "//export GoPy_S_field_1\ntype GoPy_S_field_1 unsafe.Pointer\n\n" ++
              "//export GoPy_S_getter_1\nfunc GoPy_S_getter_1(self GoPy_S) GoPy_S_field_1 \x7b\n" ++
              "ret := (*p.S)(unsafe.Pointer(self))\n" ++
              "GoPy_Other(unsafe.Pointer(&ret.C))\n" ++
              "\x7d\n\n" ++
              "//export GoPy_S_new\nfunc GoPy_S_new() GoPy_S \x7b\n" ++
              "return (GoPy_S)(unsafe.Pointer(&p.S\x7b\x7d))\n\x7d\n\n",
            indent := 0 },
        pkg := ⟨⟨"p", "x/p", []⟩⟩,
        err := [] } := by
  rfl

/-- C7, as stated, fails: for a package with an exported struct `A` and an
exported function `B`, the text is the preamble, the block of the struct `A`,
the block of the function `B` and the trailer; it is not the preamble, the
blocks of the functions, the blocks of the structs and the trailer. -/
theorem gen_struct_block_before_func_block :
    (gen specEnv (newGoGen pkgAB)).text =
      goPreamble "p" "\"x/p\"" ++ blockOf specEnv pkgAB (.TypeName "A" (.Struct [])) ++
        blockOf specEnv pkgAB (.Func "B" ⟨[], []⟩) ++ trailer "\"p\"" ∧
    (gen specEnv (newGoGen pkgAB)).text ≠
      goPreamble "p" "\"x/p\"" ++
        String.join ((pkgAB.pkg.scope.filter Object.isFunc).map (blockOf specEnv pkgAB)) ++
        String.join ((pkgAB.pkg.scope.filter Object.isStruct).map (blockOf specEnv pkgAB)) ++
        trailer "\"p\"" := by
  constructor
  · rfl
  · decide

/-- C7, amended: for a package whose exported declarations are all functions or
struct types, `gen` returns `nil` and the text is the preamble, then the block
of every exported declaration in the order of the scope (functions and structs
interleaved as their names are), then the trailer. -/
theorem gen_blocks_in_scope_order (env : Env) (pkg : Package)
    (h : ∀ o ∈ pkg.pkg.scope, o.Exported env = true → supported o = true) :
    gen env (newGoGen pkg) = .returned
      { printer :=
          { buf := goPreamble pkg.pkg.name (env.quote pkg.pkg.path) ++
              String.join ((pkg.pkg.scope.filter (Object.Exported env)).map (blockOf env pkg)) ++
              trailer (env.quote pkg.Name),
            indent := 0 },
        pkg := pkg,
        err := [] }
      none := by
  rw [gen_returned env (newGoGen pkg) h, newGoGen_Printf, join_blockOf]
  rfl

/-- C7, amended, an instance: the package with the struct `A` and the function
`B`. -/
theorem gen_blocks_in_scope_order_witness :
    (∀ o ∈ pkgAB.pkg.scope, o.Exported specEnv = true → supported o = true) ∧
    (gen specEnv (newGoGen pkgAB)).text =
      goPreamble "p" "\"x/p\"" ++
        String.join ((pkgAB.pkg.scope.filter (Object.Exported specEnv)).map (blockOf specEnv pkgAB)) ++
        trailer "\"p\"" :=
  ⟨by decide, by rw [gen_blocks_in_scope_order specEnv pkgAB (by decide)]; rfl⟩

/-- C8: for a package without an exported declaration, `gen` emits exactly the
preamble (instantiated with the name and the quoted path of the package)
followed by the stub of `main` and `init`, and returns `nil`. -/
theorem gen_no_exported (env : Env) (pkg : Package)
    (h : ∀ o ∈ pkg.pkg.scope, o.Exported env = false) :
    gen env (newGoGen pkg) = .returned
      { printer :=
          { buf := goPreamble pkg.pkg.name (env.quote pkg.pkg.path) ++
              ("// buildmode=c-shared needs a 'main'\n\nfunc main() \x7b\x7d\n" ++
               "// tickle cgo\nfunc init() \x7b\n" ++
               "str := C.CString(" ++ env.quote pkg.Name ++ ")\n" ++
               "C.free(unsafe.Pointer(str))\n" ++
               "\x7d\n"),
            indent := 0 },
        pkg := pkg,
        err := [] }
      none := by
  have hs : ∀ o ∈ (newGoGen pkg).pkg.pkg.scope, o.Exported env = true → supported o = true := by
    intro o ho he
    rw [h o ho] at he
    exact absurd he (by decide)
  have hf : pkg.pkg.scope.filter (Object.Exported env) = [] := by
    rw [List.filter_eq_nil_iff]
    intro o ho
    simp [h o ho]
  rw [gen_returned env _ hs]
  simp only [newGoGen, hf, List.flatMap_nil, unlines_nil, goGen.Printf, printer.Printf,
    List.length_nil]
  simp [trailer, String.append_assoc]

/-- C8, an instance: a package whose declarations are all non-exported. -/
theorem gen_no_exported_witness :
    (∀ o ∈ pkgHidden.pkg.scope, o.Exported specEnv = false) ∧
    (gen specEnv (newGoGen pkgHidden)).text =
      goPreamble "p" "\"x/p\"" ++
        "// buildmode=c-shared needs a 'main'\n\nfunc main() \x7b\x7d\n// tickle cgo\nfunc init() \x7b\nstr := C.CString(\"p\")\nC.free(unsafe.Pointer(str))\n\x7d\n" :=
  ⟨by decide, by rw [gen_no_exported specEnv pkgHidden (by decide)]; rfl⟩

/-- C9: whatever the fields of a struct, the text that `genStruct` emits ends
with the constructor: the export line `GoPy_<name>_new`, a function without
parameters whose result type is the handle type `GoPy_<name>` and whose body
returns the handle of the zero-valued literal `<pkg>.<name>{}`; it is the last
item of the block, and the block has exactly one export line of that name and
exactly one line that declares that function. -/
theorem genStruct_constructor_last (env : Env) (g : goGen) (name : String)
    (fields : List Var) (h : structClean env g.pkg.pkg.name name fields = true) :
    genStruct env g name fields = g.Printf
      (unlines
        (["//export GoPy_" ++ name, "type GoPy_" ++ name ++ " unsafe.Pointer", ""] ++
          fields.enum.flatMap (fun p => fieldLines env g.pkg.pkg.name name p.1 p.2)) ++
       ("//export GoPy_" ++ name ++ "_new\n" ++
        "func GoPy_" ++ name ++ "_new() GoPy_" ++ name ++ " \x7b\n" ++
        "return (GoPy_" ++ name ++ ")(unsafe.Pointer(&" ++ g.pkg.pkg.name ++ "." ++ name ++
          "\x7b\x7d))\n" ++
        "\x7d\n\n")) ∧
    (exportNames (blockOf env g.pkg (.TypeName name (.Struct fields)))).count
      ("GoPy_" ++ name ++ "_new") = 1 ∧
    (textLines (blockOf env g.pkg (.TypeName name (.Struct fields)))).count
      ("func GoPy_" ++ name ++ "_new() GoPy_" ++ name ++ " \x7b") = 1 := by
  refine ⟨?_, ?_, ?_⟩
  · rw [genStruct_eq, structLines, unlines_append]
    apply Printf_congr
    simp [unlines, ctorLines, String.data_append]
  · rw [exportNames_struct env g.pkg name fields h, count_new_structExports]
  · rw [blockOf_eq, declLines, textLines_unlines _ (structLines_oneLine _ _ _ _ h),
      count_ctorDecl_structLines]

/-- C9, an instance: a struct whose two fields are both non-exported has the
handle type and the constructor as its whole block. -/
theorem genStruct_constructor_last_witness :
    structClean specEnv "p" "S" [⟨"a", .Basic "int"⟩, ⟨"b", .Basic "string"⟩] = true ∧
    (genStruct specEnv (newGoGen ⟨⟨"p", "x/p", []⟩⟩) "S"
        [⟨"a", .Basic "int"⟩, ⟨"b", .Basic "string"⟩]).printer.buf =
      "//export GoPy_S\ntype GoPy_S unsafe.Pointer\n\n" ++
      "//export GoPy_S_new\nfunc GoPy_S_new() GoPy_S \x7b\n" ++
      "return (GoPy_S)(unsafe.Pointer(&p.S\x7b\x7d))\n\x7d\n\n" ∧
    (exportNames (blockOf specEnv ⟨⟨"p", "x/p", []⟩⟩
      (.TypeName "S" (.Struct [⟨"a", .Basic "int"⟩, ⟨"b", .Basic "string"⟩])))).count
        "GoPy_S_new" = 1 :=
  ⟨by decide,
   by rw [(genStruct_constructor_last specEnv (newGoGen ⟨⟨"p", "x/p", []⟩⟩) "S"
        [⟨"a", .Basic "int"⟩, ⟨"b", .Basic "string"⟩] (by decide)).1]; rfl,
   (genStruct_constructor_last specEnv (newGoGen ⟨⟨"p", "x/p", []⟩⟩) "S"
        [⟨"a", .Basic "int"⟩, ⟨"b", .Basic "string"⟩] (by decide)).2.1⟩

/-- C10: the wrapper that `genFunc` emits declares the parameters of the
function, each as its name, a blank and its translated type, in order and
separated by `, `, and the call in its body forwards the names of the
parameters, in order and separated by `, ` with no separator after the last
one. -/
theorem genFunc_mirrors_params (env : Env) (g : goGen) (name : String) (sig : Signature) :
    tupleString sig.params =
      ", ".intercalate (sig.params.map (fun p => p.name ++ " " ++ qualifiedType p.type)) ∧
    genFunc env g name sig = g.Printf
      ("\n//export GoPy_" ++ name ++ "\n" ++
       "// GoPy_" ++ name ++ " wraps " ++ FullName g.pkg.pkg name ++ "\n" ++
       "func GoPy_" ++ name ++
         "(" ++ ", ".intercalate
           (sig.params.map (fun p => p.name ++ " " ++ qualifiedType p.type)) ++ ")" ++
         genFuncRet sig ++ "\x7b\n" ++
       ", ".intercalate ((List.range sig.results.length).map localName) ++
         (if sig.results.length > 0 then " := " else "") ++
         g.pkg.Name ++ "." ++ name ++
         "(" ++ ", ".intercalate (sig.params.map Var.name) ++ ")\n" ++
       (if sig.results.length ≤ 0 then "" else returnLine env sig ++ "\n") ++
       "\x7d\n\n") := by
  refine ⟨tupleString_eq _, ?_⟩
  rw [genFunc_eq]
  apply Printf_congr
  by_cases h : sig.results.length ≤ 0 <;>
    simp [unlines, funcLines, callLine, String.data_append, h]

/-- C11: for a function with at least one result, the body that `genFuncBody`
emits is the line of the call, which binds the locals `_gopy_<i>` for the
indices `i` of the results, in order and separated by `, `, on the left of
` := `, and one return statement that lists, in the same order and separated
by `, `, for the result of index `i` the local `_gopy_<i>` followed by a
comment, as it is when the result needs no wrapping and between
`<handle type>(unsafe.Pointer(&` and `))` when it does. The index is written
in decimal, padded with zeros to three digits. -/
theorem genFuncBody_locals_and_return (env : Env) (g : goGen) (name : String)
    (sig : Signature) (h : 0 < sig.results.length) :
    genFuncBody env g name sig = g.Printf
      (", ".intercalate ((List.range sig.results.length).map (fun i => "_gopy_" ++ fmt03d i)) ++
         " := " ++ g.pkg.Name ++ "." ++ name ++
         "(" ++ ", ".intercalate (sig.params.map Var.name) ++ ")\n" ++
       "return " ++ ", ".intercalate (sig.results.enum.map (fun p =>
         if env.resNeedWrap p.2 then
           env.resCgotype p.2 ++ "(unsafe.Pointer(&" ++
             ("_gopy_" ++ fmt03d p.1 ++ " /* " ++ env.resGoSyntax p.2 ++ " " ++
               env.typeString p.2.type.Underlying ++ " */") ++ "))"
         else
           "_gopy_" ++ fmt03d p.1 ++ " /* " ++ env.resGoSyntax p.2 ++ " " ++
             env.typeString p.2.type.Underlying ++ " */")) ++ "\n") ∧
    (∀ i, digitsValue 0 (fmt03d i).data = i) ∧
    fmt03d 0 = "000" ∧ fmt03d 1 = "001" ∧ fmt03d 12 = "012" ∧ fmt03d 123 = "123" := by
  refine ⟨?_, fmt03d_value, rfl, rfl, rfl, rfl⟩
  have hn : ¬ sig.results.length ≤ 0 := by omega
  have hm : sig.results.enum.map (fun p => returnExpr env p.1 p.2) =
      sig.results.enum.map (fun p =>
         if env.resNeedWrap p.2 then
           env.resCgotype p.2 ++ "(unsafe.Pointer(&" ++
             ("_gopy_" ++ fmt03d p.1 ++ " /* " ++ env.resGoSyntax p.2 ++ " " ++
               env.typeString p.2.type.Underlying ++ " */") ++ "))"
         else
           "_gopy_" ++ fmt03d p.1 ++ " /* " ++ env.resGoSyntax p.2 ++ " " ++
             env.typeString p.2.type.Underlying ++ " */") := by
    apply List.map_congr_left
    intro p _
    exact returnExpr_eq env p.1 p.2
  rw [genFuncBody_eq]
  apply Printf_congr
  simp only [hn, if_false, unlines, callLine, returnLine, h, if_true, hm]
  have hl : (List.range sig.results.length).map localName =
      (List.range sig.results.length).map (fun i => "_gopy_" ++ fmt03d i) := rfl
  rw [hl]
  simp [String.data_append]

/-- C11, an instance: the results `(int, OtherStruct)`, of which the second needs
wrapping. -/
theorem genFuncBody_locals_and_return_witness :
    0 < sigIntStruct.results.length ∧
    (genFuncBody specEnv (newGoGen ⟨⟨"p", "x/p", []⟩⟩) "F" sigIntStruct).printer.buf =
      "_gopy_000, _gopy_001 := p.F()\n" ++
      "return _gopy_000 /* &bind.Var\x7b\x7d int */, " ++
        "GoPy_OtherStruct(unsafe.Pointer(&_gopy_001 /* &bind.Var\x7b\x7d *types.Struct */))\n" :=
  ⟨by decide,
   by rw [(genFuncBody_locals_and_return specEnv (newGoGen ⟨⟨"p", "x/p", []⟩⟩) "F" sigIntStruct
        (by decide)).1]; rfl⟩

/-- C12: for a function without parameters and without results, `genFunc` emits
the export line, the comment, the header `func GoPy_<name>() {` with an empty
parameter list and one blank where the result clause would be, a body that is
the one line `<pkg>.<name>()`, and the closing brace: no synthetic local, no
`:=` and no return statement. -/
theorem genFunc_no_params_no_results (env : Env) (g : goGen) (name : String) :
    genFunc env g name ⟨[], []⟩ = g.Printf
      ("\n//export GoPy_" ++ name ++ "\n" ++
       "// GoPy_" ++ name ++ " wraps " ++ FullName g.pkg.pkg name ++ "\n" ++
       "func GoPy_" ++ name ++ "() \x7b\n" ++
       g.pkg.Name ++ "." ++ name ++ "()\n" ++
       "\x7d\n\n") := by
  rw [genFunc_eq]
  apply Printf_congr
  simp [unlines, funcLines, callLine, genFuncRet, tupleString, String.intercalate,
    String.data_append]

/-- C13, as stated, fails: the export names of the package with the function
`New` and the struct `S` with the fields `[A int, b int, C OtherStruct]` start
with `GoPy_`, not with `Wrapper_`. -/
theorem export_names_are_not_Wrapper :
    exportNames (gen specEnv (newGoGen pkgNewS)).text =
      ["CGoPy_GoString", "CGoPy_CString", "GoPy_New", "GoPy_S", "GoPy_S_getter_1",
       "GoPy_S_field_3", "GoPy_S_getter_3", "GoPy_S_new"] ∧
    "Wrapper_New" ∉ exportNames (gen specEnv (newGoGen pkgNewS)).text ∧
    "Wrapper_S" ∉ exportNames (gen specEnv (newGoGen pkgNewS)).text ∧
    "Wrapper_S_new" ∉ exportNames (gen specEnv (newGoGen pkgNewS)).text ∧
    "Wrapper_S_getter_1" ∉ exportNames (gen specEnv (newGoGen pkgNewS)).text ∧
    "Wrapper_S_field_3" ∉ exportNames (gen specEnv (newGoGen pkgNewS)).text := by
  have h : exportNames (gen specEnv (newGoGen pkgNewS)).text =
      ["CGoPy_GoString", "CGoPy_CString", "GoPy_New", "GoPy_S", "GoPy_S_getter_1",
       "GoPy_S_field_3", "GoPy_S_getter_3", "GoPy_S_new"] := by rfl
  rw [h]
  exact ⟨rfl, by decide, by decide, by decide, by decide, by decide⟩

/-- C13, amended: the export names are those of the naming table with the prefix
`GoPy_`: the block of a function `F` exports `GoPy_F`; the block of a struct
`S` exports, in order, the handle type `GoPy_S`, then for every exported field
at raw position `k` the field-wrapper type `GoPy_S_field_k` if the type of the
field needs wrapping and the getter `GoPy_S_getter_k`, then the constructor
`GoPy_S_new`; `k` is written in decimal without padding. -/
theorem export_names_table (env : Env) (pkg : Package) (hp : plain pkg.pkg.name = true) :
    (∀ name sig, oneLine pkg.pkg.path = true → funcClean env name sig = true →
      exportNames (blockOf env pkg (.Func name sig)) = ["GoPy_" ++ name]) ∧
    (∀ name fields, structClean env pkg.pkg.name name fields = true →
      exportNames (blockOf env pkg (.TypeName name (.Struct fields))) =
        ["GoPy_" ++ name] ++
        fields.enum.flatMap (fun p =>
          if p.2.Exported env then
            (if env.needWrapType p.2.type then
              ["GoPy_" ++ name ++ "_field_" ++ fmtD (p.1 + 1)]
             else []) ++
            ["GoPy_" ++ name ++ "_getter_" ++ fmtD (p.1 + 1)]
          else []) ++
        ["GoPy_" ++ name ++ "_new"]) ∧
    (∀ k, fmtD k = toString k ∧ digitsValue 0 (fmtD k).data = k ∧
      (∀ c ∈ (fmtD k).data, c.isDigit = true) ∧
      (1 ≤ k → (fmtD k).data.head? ≠ some '0')) := by
  refine ⟨fun name sig hpath h => exportNames_func env pkg name sig hp hpath h, ?_, ?_⟩
  · intro name fields h
    rw [exportNames_struct env pkg name fields h, structExports]
    congr 2
    apply List.flatMap_congr
    intro p _
    exact fieldExports_eq env name p.1 p.2
  · intro k
    exact ⟨rfl, fmtD_value k, fmtD_isDigit k, fmtD_head k⟩

/-- C13, amended, an instance: the struct `S` with the fields
`[A int, b int, C OtherStruct]` in the package `p`. -/
theorem export_names_table_witness :
    plain "p" = true ∧ structClean specEnv "p" "S" fieldsAbC = true ∧
    exportNames (blockOf specEnv pkgNewS (.TypeName "S" (.Struct fieldsAbC))) =
      ["GoPy_S", "GoPy_S_getter_1", "GoPy_S_field_3", "GoPy_S_getter_3", "GoPy_S_new"] :=
  ⟨by decide, by decide,
   by rw [(export_names_table specEnv pkgNewS (by decide)).2.1 "S" fieldsAbC (by decide)]; rfl⟩

/-- C14: `qualifiedType` returns the name of a basic type, and for a named type
the prefix `GoPy_` followed by the name of the type, whatever its underlying
type is; for a named type it never returns the textual form of a struct type
(which starts with `struct{`) nor `GoPy_ooops_` followed by the name of the
type. -/
theorem qualifiedType_never_unwraps :
    (∀ n, qualifiedType (.Basic n) = n) ∧
    (∀ obj u, qualifiedType (.Named obj u) = "GoPy_" ++ obj) ∧
    (∀ obj u u', qualifiedType (.Named obj u) = qualifiedType (.Named obj u')) ∧
    (∀ obj u rest, qualifiedType (.Named obj u) ≠ "struct\x7b" ++ rest) ∧
    (∀ obj u, qualifiedType (.Named obj u) ≠ "GoPy_ooops_" ++ obj) := by
  refine ⟨fun _ => rfl, fun _ _ => rfl, fun _ _ _ => rfl, ?_, ?_⟩
  · intro obj u rest h
    have := congrArg String.data h
    simp [qualifiedType, String.data_append] at this
  · intro obj u h
    have := congrArg (fun s => s.data.length) h
    simp [qualifiedType, String.data_append] at this

/-- C15: the block that `genStruct` emits is the handle type, then for every
exported field at raw position `k`, in order: if the type of the field needs
wrapping, the export line and the declaration of the field-wrapper type
`GoPy_<name>_field_<k>`, immediately followed by the getter, whose result type
is that field-wrapper type; if it needs no wrapping, the getter alone, whose
result type is the translated type of the field; then the constructor. Every
getter has the one parameter `self` of the handle type. The declaration of the
field-wrapper type of position `k` occurs once in the block when the field at
raw position `k` is exported and needs wrapping, and not at all otherwise. -/
theorem genStruct_field_wrapper (env : Env) (g : goGen) (name : String) (fields : List Var)
    (h : structClean env g.pkg.pkg.name name fields = true) :
    genStruct env g name fields = g.Printf (unlines
      (["//export GoPy_" ++ name, "type GoPy_" ++ name ++ " unsafe.Pointer", ""] ++
       fields.enum.flatMap (fun p =>
         if p.2.Exported env then
           (if env.needWrapType p.2.type then
             ["//export GoPy_" ++ name ++ "_field_" ++ fmtD (p.1 + 1),
              "type GoPy_" ++ name ++ "_field_" ++ fmtD (p.1 + 1) ++ " unsafe.Pointer",
              ""]
            else []) ++
           ["//export GoPy_" ++ name ++ "_getter_" ++ fmtD (p.1 + 1),
            "func GoPy_" ++ name ++ "_getter_" ++ fmtD (p.1 + 1) ++
              "(self GoPy_" ++ name ++ ") " ++
              (if env.needWrapType p.2.type then
                 "GoPy_" ++ name ++ "_field_" ++ fmtD (p.1 + 1)
               else qualifiedType p.2.type) ++ " \x7b",
            "ret := (*" ++ g.pkg.pkg.name ++ "." ++ name ++ ")(unsafe.Pointer(self))",
            (if env.needWrapType p.2.type then
               env.cgotype p.2.type ++ "(unsafe.Pointer(&ret." ++ p.2.name ++ "))"
             else "return ret." ++ p.2.name),
            "\x7d",
            ""]
         else []) ++
       ["//export GoPy_" ++ name ++ "_new",
        "func GoPy_" ++ name ++ "_new() GoPy_" ++ name ++ " \x7b",
        "return (GoPy_" ++ name ++ ")(unsafe.Pointer(&" ++ g.pkg.pkg.name ++ "." ++ name ++
          "\x7b\x7d))",
        "\x7d",
        ""])) ∧
    (∀ k, (textLines (blockOf env g.pkg (.TypeName name (.Struct fields)))).count
        ("type GoPy_" ++ name ++ "_field_" ++ fmtD k ++ " unsafe.Pointer") =
      if k ∈ wrappedPositions env fields then 1 else 0) ∧
    (∀ k, k ∈ wrappedPositions env fields ↔
      1 ≤ k ∧ ∃ f, fields[k - 1]? = some f ∧ f.Exported env = true ∧
        env.needWrapType f.type = true) := by
  refine ⟨?_, ?_, mem_wrappedPositions env fields⟩
  · rw [genStruct_eq, structLines, ctorLines]
    congr 4
    apply List.flatMap_congr
    intro p _
    exact fieldLines_eq env g.pkg.pkg.name name p.1 p.2
  · intro k
    rw [blockOf_eq, declLines, textLines_unlines _ (structLines_oneLine _ _ _ _ h),
      count_typeLine_structLines]

/-- C15, an instance: in the block of the struct `S` with the fields
`[A int, b int, C OtherStruct]` the field-wrapper type of position 3 is
declared once, and none is declared for the positions 1 and 2. -/
theorem genStruct_field_wrapper_witness :
    structClean specEnv "p" "S" fieldsAbC = true ∧
    wrappedPositions specEnv fieldsAbC = [3] ∧
    (textLines (blockOf specEnv pkgNewS (.TypeName "S" (.Struct fieldsAbC)))).count
      "type GoPy_S_field_3 unsafe.Pointer" = 1 ∧
    (textLines (blockOf specEnv pkgNewS (.TypeName "S" (.Struct fieldsAbC)))).count
      "type GoPy_S_field_1 unsafe.Pointer" = 0 :=
  ⟨by decide, by decide,
   (genStruct_field_wrapper specEnv (newGoGen pkgNewS) "S" fieldsAbC (by decide)).2.1 3,
   (genStruct_field_wrapper specEnv (newGoGen pkgNewS) "S" fieldsAbC (by decide)).2.1 1⟩

/-- C16: two packages of the same name and path whose exported declarations are
the same, in the same order, get the same text from `gen` and the same
outcome (`nil` or a panic at the same object), whatever non-exported
constants, variables, functions, interfaces or other types either has; `gen`
returns `nil` exactly when every exported declaration is a function or a
struct type, and when it panics it is at an exported declaration that is
not. -/
theorem gen_ignores_unexported (env : Env) (pkg1 pkg2 : Package)
    (hn : pkg1.pkg.name = pkg2.pkg.name) (hp : pkg1.pkg.path = pkg2.pkg.path)
    (hs : pkg1.pkg.scope.filter (Object.Exported env) = pkg2.pkg.scope.filter (Object.Exported env)) :
    (gen env (newGoGen pkg1)).text = (gen env (newGoGen pkg2)).text ∧
    (gen env (newGoGen pkg1)).outcome = (gen env (newGoGen pkg2)).outcome ∧
    ((gen env (newGoGen pkg1)).outcome = .nil ↔
      ∀ o ∈ pkg1.pkg.scope, o.Exported env = true → supported o = true) ∧
    (∀ obj, (gen env (newGoGen pkg1)).outcome = .panic obj →
      obj ∈ pkg1.pkg.scope ∧ obj.Exported env = true ∧ supported obj = false) := by
  have hcongr : ∀ l : List Object,
      l.flatMap (declLines env (newGoGen pkg1).pkg) =
        l.flatMap (declLines env (newGoGen pkg2).pkg) := by
    intro l
    apply List.flatMap_congr
    intro o _
    exact declLines_congr env pkg1 pkg2 o hn hp
  have hname : (newGoGen pkg1).pkg.Name = (newGoGen pkg2).pkg.Name := hn
  rcases scope_split env (pkg1.pkg.scope.filter (Object.Exported env)) with h | ⟨pre, o, post, h1, h2, h3, h4⟩
  · have hall1 : ∀ o ∈ (newGoGen pkg1).pkg.pkg.scope, o.Exported env = true → supported o = true :=
      fun o ho he => h o (List.mem_filter.2 ⟨ho, he⟩) he
    have hall2 : ∀ o ∈ (newGoGen pkg2).pkg.pkg.scope, o.Exported env = true → supported o = true :=
      fun o ho he => h o (hs ▸ List.mem_filter.2 ⟨ho, he⟩) he
    obtain ⟨t1, o1⟩ := gen_text_returned env (newGoGen pkg1) hall1
    obtain ⟨t2, o2⟩ := gen_text_returned env (newGoGen pkg2) hall2
    refine ⟨?_, ?_, ?_, ?_⟩
    · rw [t1, t2, hname, hcongr]
      simp only [newGoGen, hn, hp, hs]
    · rw [o1, o2]
      rfl
    · rw [o1]
      exact ⟨fun _ => hall1, fun _ => rfl⟩
    · intro obj hobj
      rw [o1] at hobj
      cases hobj
  · have hmem : ∀ p ∈ pre ++ o :: post, p ∈ pkg1.pkg.scope ∧ p.Exported env = true := by
      intro p hp
      rw [← h1] at hp
      exact List.mem_filter.1 hp
    have hpre : ∀ p ∈ pre, supported p = true :=
      fun p hp => h2 p hp (hmem p (List.mem_append_left _ hp)).2
    obtain ⟨t1, o1⟩ := gen_text_panic env (newGoGen pkg1) pre post o h1 hpre h4
    obtain ⟨t2, o2⟩ := gen_text_panic env (newGoGen pkg2) pre post o (hs ▸ h1) hpre h4
    have hom := hmem o (List.mem_append_right _ (List.mem_cons_self _ _))
    refine ⟨?_, ?_, ?_, ?_⟩
    · rw [t1, t2, hcongr]
      simp only [newGoGen, hn, hp]
    · rw [o1, o2]
    · rw [o1]
      constructor
      · intro hc
        cases hc
      · intro hall
        have := hall o hom.1 hom.2
        rw [h4] at this
        cases this
    · intro obj hobj
      rw [o1] at hobj
      injection hobj with hobj
      subst hobj
      exact ⟨hom.1, hom.2, h4⟩

/-- C16, an instance: the package with the exported function `F` alone, and the
same with a non-exported constant, function, interface, named type and
variable added. -/
theorem gen_ignores_unexported_witness :
    pkgSlice.pkg.scope.filter (Object.Exported specEnv) =
      pkgSliceHidden.pkg.scope.filter (Object.Exported specEnv) ∧
    (gen specEnv (newGoGen pkgSlice)).text = (gen specEnv (newGoGen pkgSliceHidden)).text ∧
    (gen specEnv (newGoGen pkgSliceHidden)).outcome = .nil :=
  ⟨by decide,
   (gen_ignores_unexported specEnv pkgSlice pkgSliceHidden rfl rfl (by decide)).1,
   by rfl⟩

/-- C17: no function of the generator changes the error list; a call of `gen`
that starts with an empty error list and returns, returns `nil`; `gen` returns
exactly when every exported declaration is a function or a struct type; and
when `gen` panics, it does so at the first exported declaration that is not,
with the preamble and the blocks of the exported declarations before it
emitted, and nothing else: no trailer. -/
theorem gen_never_records_a_diagnostic (env : Env) (g : goGen) :
    (genPreamble env g).err = g.err ∧
    (∀ name sig, (genFuncBody env g name sig).err = g.err) ∧
    (∀ name sig, (genFunc env g name sig).err = g.err) ∧
    (∀ name fields, (genStruct env g name fields).err = g.err) ∧
    (gen env g).state.err = g.err ∧
    (∀ g' e, g.err = [] → gen env g = .returned g' e → e = none) ∧
    ((∃ g' e, gen env g = .returned g' e) ↔
      ∀ o ∈ g.pkg.pkg.scope, o.Exported env = true → supported o = true) ∧
    (∀ g' obj, gen env g = .panic g' obj →
      ∃ pre post, g.pkg.pkg.scope = pre ++ obj :: post ∧
        (∀ p ∈ pre, p.Exported env = true → supported p = true) ∧
        obj.Exported env = true ∧ supported obj = false ∧
        g' = g.Printf (goPreamble g.pkg.pkg.name (env.quote g.pkg.pkg.path) ++
          String.join ((pre.filter (Object.Exported env)).map (blockOf env g.pkg)))) := by
  refine ⟨rfl, fun n s => by rw [genFuncBody_eq]; rfl, fun n s => by rw [genFunc_eq]; rfl,
    fun n f => by rw [genStruct_eq]; rfl, ?_, ?_, ?_, ?_⟩
  · obtain ⟨s, hs⟩ := gen_state env g
    rw [hs]
    rfl
  · intro g' e he hg
    rcases scope_split env g.pkg.pkg.scope with h | ⟨pre, o, post, h1, h2, h3, h4⟩
    · rw [gen_returned env g h] at hg
      injection hg with _ h2
      rw [← h2, he]
      rfl
    · rw [gen_panic env g pre post o h1 h2 h3 h4] at hg
      cases hg
  · constructor
    · rintro ⟨g', e, hg⟩
      rcases scope_split env g.pkg.pkg.scope with h | ⟨pre, o, post, h1, h2, h3, h4⟩
      · exact h
      · rw [gen_panic env g pre post o h1 h2 h3 h4] at hg
        cases hg
    · intro h
      exact ⟨_, _, gen_returned env g h⟩
  · intro g' obj hg
    rcases scope_split env g.pkg.pkg.scope with h | ⟨pre, o, post, h1, h2, h3, h4⟩
    · rw [gen_returned env g h] at hg
      cases hg
    · rw [gen_panic env g pre post o h1 h2 h3 h4] at hg
      injection hg with hg1 hg2
      subst hg2
      refine ⟨pre, post, h1, h2, h3, h4, ?_⟩
      rw [← hg1, join_blockOf]

/-- C17, an instance: the package with the exported interface type `A` and the
exported function `F`, from an empty error list. -/
theorem gen_never_records_a_diagnostic_witness :
    (gen specEnv (newGoGen pkgIface)).state.err = [] ∧
    (gen specEnv (newGoGen pkgIface)).outcome = .panic (.TypeName "A" .Interface) ∧
    (gen specEnv (newGoGen pkgIface)).text = goPreamble "p" "\"x/p\"" :=
  ⟨(gen_never_records_a_diagnostic specEnv (newGoGen pkgIface)).2.2.2.2.1, by rfl, by rfl⟩

/-- C18: the type name that `qualifiedType` gives to a parameter or result of the
named type `S`, and that `tupleString` writes into the signature of a wrapper,
is the handle type name of the block of `S`: the name that `genStruct` exports
and declares as `unsafe.Pointer`, the type of the parameter `self` of every
getter, and the result type and the conversion of the constructor. -/
theorem handle_name_consistent (env : Env) (g : goGen) (name : String) (fields : List Var)
    (u : Underlying) (p : String) (pre post : List Var) :
    tupleString (pre ++ ⟨p, .Named name u⟩ :: post) =
      ", ".intercalate
        (pre.map (fun v => v.name ++ " " ++ qualifiedType v.type) ++
          (p ++ " " ++ qualifiedType (.Named name u)) ::
          post.map (fun v => v.name ++ " " ++ qualifiedType v.type)) ∧
    genStruct env g name fields = g.Printf
      ("//export " ++ qualifiedType (.Named name u) ++ "\n" ++
       "type " ++ qualifiedType (.Named name u) ++ " unsafe.Pointer\n\n" ++
       unlines (fields.enum.flatMap (fun q => fieldLines env g.pkg.pkg.name name q.1 q.2)) ++
       "//export " ++ qualifiedType (.Named name u) ++ "_new\n" ++
       "func " ++ qualifiedType (.Named name u) ++ "_new() " ++
         qualifiedType (.Named name u) ++ " \x7b\n" ++
       "return (" ++ qualifiedType (.Named name u) ++ ")(unsafe.Pointer(&" ++
         g.pkg.pkg.name ++ "." ++ name ++ "\x7b\x7d))\n" ++
       "\x7d\n\n") ∧
    (∀ q ∈ fields.enum, q.2.Exported env = true →
      ∃ rt, "func " ++ qualifiedType (.Named name u) ++ "_getter_" ++ fmtD (q.1 + 1) ++
          "(self " ++ qualifiedType (.Named name u) ++ ") " ++ rt ++ " \x7b" ∈
        fieldLines env g.pkg.pkg.name name q.1 q.2) := by
  refine ⟨?_, ?_, ?_⟩
  · rw [tupleString_eq]
    simp
  · rw [genStruct_eq, structLines, unlines_append, unlines_append]
    apply Printf_congr
    simp [unlines, ctorLines, qualifiedType, String.data_append]
  · intro q _ he
    refine ⟨if env.needWrapType q.2.type then "GoPy_" ++ name ++ "_field_" ++ fmtD (q.1 + 1)
      else qualifiedType q.2.type, ?_⟩
    unfold fieldLines
    cases hw : env.needWrapType q.2.type <;>
      simp [he, qualifiedType, String.ext_iff, String.data_append]

/-- C19: `genFuncBody`, `genFunc`, `genStruct` and `gen` leave the indentation
level as it was on entry, for every function (with or without results), every
struct (with or without exported fields) and every package. -/
theorem indent_balanced (env : Env) (g : goGen) :
    (∀ name sig, (genFuncBody env g name sig).printer.indent = g.printer.indent) ∧
    (∀ name sig, (genFunc env g name sig).printer.indent = g.printer.indent) ∧
    (∀ name fields, (genStruct env g name fields).printer.indent = g.printer.indent) ∧
    (gen env g).state.printer.indent = g.printer.indent ∧
    (∀ g' e, gen env g = .returned g' e → g'.printer.indent = g.printer.indent) := by
  have hgen : (gen env g).state.printer.indent = g.printer.indent := by
    obtain ⟨s, hs⟩ := gen_state env g
    rw [hs]
    rfl
  refine ⟨fun n s => by rw [genFuncBody_eq]; rfl, fun n s => by rw [genFunc_eq]; rfl,
    fun n f => by rw [genStruct_eq]; rfl, hgen, ?_⟩
  intro g' e hg
  rw [hg] at hgen
  exact hgen

end Gopy
